import Mathlib

set_option linter.unusedVariables false

/-!
Verification development for the list-box viewport engine
(`urwid/widget/listbox.py`): the visibility calculator, the renderer's
completeness probe, the down-key navigation handler and the focus/offset
mutation primitives, shallowly embedded over a `SimpleListWalker` body
(a finite list of widgets addressed by integer positions) and, for the
traversal claims, over an abstract walker with explicit fuel.
-/

namespace Urwid

/-- A displayable item, the Item capability of the spec (§6): a fixed
measured height at the rendered width (`rows((maxcol,))`), a `selectable()`
flag and the optional `get_cursor_coords` result.  The optional
`move_cursor_to_coords`, `get_pref_col` and key-consuming capabilities are
absent on these items (widgets are free to lack them), so `keypress` on an
item returns the key unchanged and `change_focus` cursor placement is a
no-op. -/
structure Item where
  height : Nat
  selectable : Bool
  cursor : Option (Nat × Nat) := none
deriving Repr, DecidableEq

/-- `VisibleInfoFillItem`: one `(widget, position, rows)` entry of a fill list. -/
structure VisibleInfoFillItem where
  widget : Item
  position : Nat
  rows : Nat
deriving Repr, DecidableEq

/-- `VisibleInfoMiddle`: `(offset, focus widget, focus position, focus rows, cursor)`. -/
structure VisibleInfoMiddle where
  offset : Int
  focusWidget : Item
  focusPos : Nat
  focusRows : Nat
  cursor : Option (Nat × Nat)
deriving Repr, DecidableEq

/-- `VisibleInfoTopBottom`: trim plus fill list (nearest-to-focus first). -/
structure VisibleInfoTopBottom where
  trim : Nat
  fill : List VisibleInfoFillItem
deriving Repr, DecidableEq

/-- `VisibleInfo`: the three-part visibility partition. -/
structure VisibleInfo where
  middle : VisibleInfoMiddle
  top : VisibleInfoTopBottom
  bottom : VisibleInfoTopBottom
deriving Repr, DecidableEq

/-- The exceptions the embedded code can raise (`ListBoxError`, `IndexError`,
and the `AttributeError`/`TypeError` slots Python would hit on unreachable
paths). -/
inductive LBErr where
  | invalidInsetFraction
  | insetFractionInternal
  | invalidOffset (offsetInset : Int)
  | indexError
  | attrError
  | typeError
  | contentsTooShortWidget (position : Nat)
  | selfLoopPosition (position : Nat)
  | widgetRowsMismatch (position : Nat)
  | contentsTooLong
  | contentsTooShortTrim
deriving Repr, DecidableEq

theorem except_bind_ok {ε α β : Type} (a : α) (f : α → Except ε β) :
    (Except.ok a >>= f) = f a := rfl

theorem except_bind_error {ε α β : Type} (e : ε) (f : α → Except ε β) :
    ((Except.error e : Except ε α) >>= f) = Except.error e := rfl

theorem except_pure_bind {ε α β : Type} (a : α) (f : α → Except ε β) :
    ((pure a : Except ε α) >>= f) = f a := rfl

theorem except_pure_eq {ε α : Type} (a : α) : (pure a : Except ε α) = .ok a := rfl

theorem except_bind_eq_ok {ε α β : Type} {x : Except ε α} {f : α → Except ε β} {b : β}
    (h : (x >>= f) = .ok b) : ∃ a, x = .ok a ∧ f a = .ok b := by
  cases x with
  | error e =>
    rw [except_bind_error] at h
    exact Except.noConfusion h
  | ok a =>
    rw [except_bind_ok] at h
    exact ⟨a, rfl, h⟩

/-- `SimpleListWalker.get_prev`: positions are list indices, `prev_position`
raises (→ `(None, None)`) at position 0, otherwise moves to `position - 1`. -/
def getPrev (items : List Item) (position : Nat) : Option (Item × Nat) :=
  match position with
  | 0 => none
  | p + 1 => (items[p]?).map (fun w => (w, p))

/-- `SimpleListWalker.get_next`: `next_position` raises (→ `(None, None)`)
when `len - 1 <= position` (no wrap-around), otherwise moves to
`position + 1`. -/
def getNext (items : List Item) (position : Nat) : Option (Item × Nat) :=
  if items.length - 1 ≤ position then none
  else (items[position + 1]?).map (fun w => (w, position + 1))

/-- Lines 497-498 of `calculate_visible`: force at least one line of the
focus to be visible (`if maxrow and offset_rows >= maxrow: offset_rows =
maxrow - 1`). -/
def clampOffset (maxrow offsetRows : Nat) : Nat :=
  if maxrow ≠ 0 ∧ maxrow ≤ offsetRows then maxrow - 1 else offsetRows

/-- `ListBox.get_focus_offset_inset`: returns `(offset rows, inset rows)`
for the focus widget, validating the stored inset fraction. -/
def getFocusOffsetInset (focusWidget : Item) (offsetRows insetNum insetDen : Nat) :
    Except LBErr (Nat × Nat) :=
  if offsetRows ≠ 0 then .ok (offsetRows, 0)
  else if insetDen ≤ insetNum then .error .invalidInsetFraction
  else
    let insetRows := focusWidget.height * insetNum / insetDen
    if insetRows ≠ 0 ∧ focusWidget.height ≤ insetRows then .error .insetFractionInternal
    else .ok (0, insetRows)

/-- Lines 505-514 of `calculate_visible`: shift `offset_rows`/`inset_rows`
so that the focus cursor stays inside the viewport. -/
def adjustForCursor (maxrow : Nat) (offsetRows insetRows : Nat)
    (cursor : Option (Nat × Nat)) : Nat × Nat :=
  match cursor with
  | none => (offsetRows, insetRows)
  | some (_cx, cy) =>
    let effectiveCy : Int := (cy : Int) + offsetRows - insetRows
    if effectiveCy < 0 then (offsetRows, cy)
    else if (maxrow : Int) ≤ effectiveCy then
      let offsetRows' : Int := (maxrow : Int) - cy - 1
      if offsetRows' < 0 then (0, (-offsetRows').toNat)
      else (offsetRows'.toNat, insetRows)
    else (offsetRows, insetRows)

theorem getPrev_lt {items : List Item} {pos : Nat} {w : Item} {p : Nat}
    (h : getPrev items pos = some (w, p)) : p < pos := by
  cases pos with
  | zero => simp [getPrev] at h
  | succ n =>
    simp only [getPrev, Option.map_eq_some'] at h
    obtain ⟨a, _, h2⟩ := h
    cases h2
    exact Nat.lt_succ_self _

theorem getNext_eq {items : List Item} {pos : Nat} {w : Item} {p : Nat}
    (h : getNext items pos = some (w, p)) :
    p = pos + 1 ∧ pos + 1 < items.length := by
  simp only [getNext] at h
  split at h
  · simp at h
  · rename_i hlen
    simp only [Option.map_eq_some'] at h
    obtain ⟨a, _, h2⟩ := h
    cases h2
    omega

/-- Output of step 2 of `calculate_visible` (collect the widgets above the
focus): the adjusted `offset_rows`, `trim_top`, the accumulated `fill_above`
list and the last position reached (`top_pos`). -/
structure AboveOut where
  offsetRows : Nat
  trimTop : Nat
  fillAbove : List VisibleInfoFillItem
  topPos : Nat
deriving Repr, DecidableEq

/-- Step 2 of `calculate_visible` (lines 521-538): walk backward from the
focus while `fill_lines > 0`; running out of widgets refunds the remaining
lines from `offset_rows`; a widget crossing the top edge sets `trim_top`;
0-height widgets are filtered out of the fill list.  The `get_prev` step is
written out as its two cases (position 0, or index `pos - 1`) so that the
recursion is structural on the position. -/
def collectAbove (items : List Item) : (pos : Nat) →
    (fillLines offsetRows trimTop : Nat) →
    (fillAbove : List VisibleInfoFillItem) → (topPos : Nat) → AboveOut
  | 0, fillLines, offsetRows, trimTop, fillAbove, topPos =>
    if fillLines = 0 then ⟨offsetRows, trimTop, fillAbove, topPos⟩
    else ⟨offsetRows - fillLines, trimTop, fillAbove, topPos⟩
  | p + 1, fillLines, offsetRows, trimTop, fillAbove, topPos =>
    if fillLines = 0 then ⟨offsetRows, trimTop, fillAbove, topPos⟩
    else
      match items[p]? with
      | none => ⟨offsetRows - fillLines, trimTop, fillAbove, topPos⟩
      | some prev =>
        let pRows := prev.height
        let fillAbove' := if pRows ≠ 0 then fillAbove ++ [⟨prev, p, pRows⟩] else fillAbove
        if fillLines < pRows then ⟨offsetRows, pRows - fillLines, fillAbove', p⟩
        else collectAbove items p (fillLines - pRows) offsetRows trimTop fillAbove' p

/-- Output of step 3 of `calculate_visible` (collect the widgets below the
focus): the residual `fill_lines` (may be negative after a bottom-edge
crossing), `trim_bottom` and `fill_below`. -/
structure BelowOut where
  fillLines : Int
  trimBottom : Nat
  fillBelow : List VisibleInfoFillItem
deriving Repr, DecidableEq

/-- The loop body of step 3 of `calculate_visible`, structural on `gas`,
the number of positions remaining to the end of the list
(`items.length - pos`, maintained by `collectBelow`): when `gas = 0`,
`get_next` returns the end marker, so both bodies agree. -/
def collectBelowGo (items : List Item) : (gas : Nat) → (pos : Nat) → (fillLines : Int) →
    (trimBottom : Nat) → (fillBelow : List VisibleInfoFillItem) → BelowOut
  | 0, _, fillLines, trimBottom, fillBelow => ⟨fillLines, trimBottom, fillBelow⟩
  | gas + 1, pos, fillLines, trimBottom, fillBelow =>
    if fillLines ≤ 0 then ⟨fillLines, trimBottom, fillBelow⟩
    else
      match getNext items pos with
      | none => ⟨fillLines, trimBottom, fillBelow⟩
      | some (nxt, p) =>
        let nRows := nxt.height
        let fillBelow' := if nRows ≠ 0 then fillBelow ++ [⟨nxt, p, nRows⟩] else fillBelow
        if fillLines < (nRows : Int) then
          ⟨fillLines - nRows, ((nRows : Int) - fillLines).toNat, fillBelow'⟩
        else collectBelowGo items gas p (fillLines - nRows) trimBottom fillBelow'

/-- Step 3 of `calculate_visible` (lines 543-558): walk forward from the
focus while `fill_lines > 0`; a widget crossing the bottom edge sets
`trim_bottom`; 0-height widgets are filtered out of the fill list. -/
def collectBelow (items : List Item) (pos : Nat) (fillLines : Int) (trimBottom : Nat)
    (fillBelow : List VisibleInfoFillItem) : BelowOut :=
  collectBelowGo items (items.length - pos) pos fillLines trimBottom fillBelow

/-- Lines 561-571 of `calculate_visible`: after clamping the residual
`fill_lines` at 0, consume any remaining `trim_top` before pulling more
widgets in from the top; returns `(fill_lines, trim_top, offset_rows)`. -/
def adjustTrimTop (fillLines trimTop offsetRows : Nat) : Nat × Nat × Nat :=
  if 0 < fillLines ∧ 0 < trimTop then
    if fillLines ≤ trimTop then (0, trimTop - fillLines, offsetRows + fillLines)
    else (fillLines - trimTop, 0, offsetRows + trimTop)
  else (fillLines, trimTop, offsetRows)

/-- Output of step 4's refill loop: final `offset_rows`, `trim_top`,
`fill_above`, and the loop's residual unfilled budget (0 unless the walk
ran out of widgets). -/
structure TopAgainOut where
  offsetRows : Nat
  trimTop : Nat
  fillAbove : List VisibleInfoFillItem
  fillLines : Nat
deriving Repr, DecidableEq

/-- Step 4 of `calculate_visible` (lines 572-585): fill from the top again
when the bottom ran out of content.  Note: unlike steps 2 and 3 this loop
appends to `fill_above` unconditionally, without the 0-height filter.  As in
`collectAbove`, `get_prev` is written out so the recursion is structural. -/
def fillTopAgain (items : List Item) : (pos : Nat) → (fillLines offsetRows trimTop : Nat) →
    (fillAbove : List VisibleInfoFillItem) → TopAgainOut
  | 0, fillLines, offsetRows, trimTop, fillAbove =>
    if fillLines = 0 then ⟨offsetRows, trimTop, fillAbove, 0⟩
    else ⟨offsetRows, trimTop, fillAbove, fillLines⟩
  | p + 1, fillLines, offsetRows, trimTop, fillAbove =>
    if fillLines = 0 then ⟨offsetRows, trimTop, fillAbove, 0⟩
    else
      match items[p]? with
      | none => ⟨offsetRows, trimTop, fillAbove, fillLines⟩
      | some prev =>
        let pRows := prev.height
        let fillAbove' := fillAbove ++ [⟨prev, p, pRows⟩]
        if fillLines < pRows then ⟨offsetRows + fillLines, pRows - fillLines, fillAbove', 0⟩
        else fillTopAgain items p (fillLines - pRows) (offsetRows + pRows) trimTop fillAbove'

/-- Steps 1-5 of `ListBox.calculate_visible` over a `SimpleListWalker` body:
the pure partition computation run once any pending focus change has been
resolved.  Returns `none` when the walker's `get_focus` yields no widget
(the `(None, None, None)` result). -/
def calcVisiblePure (items : List Item) (focus : Nat)
    (offsetRows0 insetNum insetDen : Nat) (maxcol maxrow : Nat)
    (focusFlag : Bool) : Except LBErr (Option VisibleInfo) :=
  match items[focus]? with
  | none => .ok none
  | some focusWidget => do
    let oi ← getFocusOffsetInset focusWidget offsetRows0 insetNum insetDen
    let offsetRows2 := clampOffset maxrow oi.1
    let cursor := if maxrow ≠ 0 ∧ focusWidget.selectable ∧ focusFlag then
      focusWidget.cursor else none
    let oi3 := adjustForCursor maxrow offsetRows2 oi.2 cursor
    let trimTop0 := oi3.2
    let focusRows := focusWidget.height
    let a := collectAbove items focus oi3.1 oi3.1 trimTop0 [] focus
    let trimBottom0 := ((focusRows : Int) + a.offsetRows - oi3.2 - maxrow).toNat
    let fillLines0 : Int := (maxrow : Int) - focusRows - a.offsetRows + oi3.2
    let b := collectBelow items focus fillLines0 trimBottom0 []
    let fillLines1 := b.fillLines.toNat
    let adj := adjustTrimTop fillLines1 a.trimTop a.offsetRows
    let t := fillTopAgain items a.topPos adj.1 adj.2.2 adj.2.1 a.fillAbove
    .ok (some ⟨⟨(t.offsetRows : Int) - oi3.2, focusWidget, focus, focusRows, cursor⟩,
               ⟨t.trimTop, t.fillAbove⟩, ⟨b.trimBottom, b.fillBelow⟩⟩)

/-- The `coming_from` direction hint. -/
inductive Direction where
  | above
  | below
deriving Repr, DecidableEq

/-- `set_focus_pending`: `None`, the initial `"first selectable"`, or the
`(coming_from, prior widget, prior position)` tuple stored by `set_focus`
(the prior widget itself is never read, only unpacked). -/
inductive Pending where
  | none
  | firstSelectable
  | restore (comingFrom : Option Direction) (priorPos : Nat)
deriving Repr, DecidableEq

/-- Vertical alignment kinds accepted by `set_focus_valign`. -/
inductive VAlignKind where
  | top
  | middle
  | bottom
  | relative
deriving Repr, DecidableEq

/-- The ListBox viewport state: the `SimpleListWalker` body (list plus focus
index) together with `offset_rows`, `inset_fraction`, `pref_col`
(`none` models the initial `"left"`), and the two pending-request slots. -/
structure ListBox where
  items : List Item
  focus : Nat
  offsetRows : Nat := 0
  insetNum : Nat := 0
  insetDen : Nat := 1
  prefCol : Option Nat := none
  pending : Pending := Pending.none
  valignPending : Option (VAlignKind × Int) := none
deriving Repr, DecidableEq

/-- Steps 1-5 of `calculate_visible` applied to a ListBox state. -/
def ListBox.calcVisible (lb : ListBox) (maxcol maxrow : Nat) (focusFlag : Bool) :
    Except LBErr (Option VisibleInfo) :=
  calcVisiblePure lb.items lb.focus lb.offsetRows lb.insetNum lb.insetDen maxcol maxrow focusFlag

/-- `SimpleListWalker.set_focus`: validates `0 <= position < len(self)`. -/
def ListBox.setFocusBody (lb : ListBox) (position : Nat) : Except LBErr ListBox :=
  if position < lb.items.length then .ok { lb with focus := position }
  else .error .indexError

/-- `ListBox.shift_focus`: reinterpret a signed `offset_inset` into
`offset_rows`/`inset_fraction` without touching the body's focus. -/
def ListBox.shiftFocus (lb : ListBox) (maxcol maxrow : Nat) (offsetInset : Int) :
    Except LBErr ListBox :=
  if 0 ≤ offsetInset then
    if (maxrow : Int) ≤ offsetInset then .error (.invalidOffset offsetInset)
    else .ok { lb with offsetRows := offsetInset.toNat, insetNum := 0, insetDen := 1 }
  else
    match lb.items[lb.focus]? with
    | none => .error .attrError
    | some target =>
      if offsetInset + target.height ≤ 0 then .error (.invalidOffset offsetInset)
      else .ok { lb with offsetRows := 0, insetNum := (-offsetInset).toNat,
                         insetDen := target.height }

/-- `ListBox.update_pref_col_from_focus`: the embedded items expose no
`get_pref_col`, so `pref_col` comes from the cursor column when a cursor
exists. -/
def ListBox.updatePrefColFromFocus (lb : ListBox) (maxcol : Nat) : ListBox :=
  match lb.items[lb.focus]? with
  | none => lb
  | some w =>
    match w.cursor with
    | some (cx, _) => { lb with prefCol := some cx }
    | none => lb

/-- `ListBox.change_focus`: update `pref_col`, move the body focus, apply the
snap-to-selectable adjustment bounded by `snap_rows`, convert the resulting
`offset_inset`; the final cursor-placement step is a no-op because the
embedded items lack `move_cursor_to_coords`. -/
def ListBox.changeFocus (lb : ListBox) (maxcol maxrow : Nat) (position : Nat)
    (offsetInset : Int) (comingFrom : Option Direction)
    (cursorCoords : Option (Nat × Option Nat)) (snapRows? : Option Int) :
    Except LBErr ListBox := do
  let lb1 := match cursorCoords with
    | some cc => { lb with prefCol := some cc.1 }
    | none => lb.updatePrefColFromFocus maxcol
  let lb2 ← lb1.setFocusBody position
  let target ← match lb2.items[lb2.focus]? with
    | none => .error .attrError
    | some t => pure t
  let tgtRows : Nat := target.height
  let snapRows := snapRows?.getD ((maxrow : Int) - 1)
  let alignTop : Int := 0
  let alignBottom : Int := (maxrow : Int) - tgtRows
  let offsetInset :=
    if comingFrom = some Direction.above ∧ target.selectable ∧ alignBottom < offsetInset then
      if offsetInset - alignBottom ≤ snapRows then alignBottom
      else if offsetInset - alignTop ≤ snapRows then alignTop
      else offsetInset - snapRows
    else if comingFrom = some Direction.below ∧ target.selectable ∧ offsetInset < alignTop then
      if alignTop - offsetInset ≤ snapRows then alignTop
      else if alignBottom - offsetInset ≤ snapRows then alignBottom
      else offsetInset + snapRows
    else offsetInset
  if 0 ≤ offsetInset then
    .ok { lb2 with offsetRows := offsetInset.toNat, insetNum := 0, insetDen := 1 }
  else if offsetInset + tgtRows ≤ 0 then .error (.invalidOffset offsetInset)
  else .ok { lb2 with offsetRows := 0, insetNum := (-offsetInset).toNat, insetDen := tgtRows }

/-- Modelled from the spec: `calculate_top_bottom_filler` (widget/filler.py)
is not among the sources.  Per the spec's vertical-alignment kinds, the rows
left above the focus widget are 0 for `top`, the full slack for `bottom`,
half the slack for `middle` and the given percentage of the slack for
`relative`, never negative. -/
def calculateTopFiller (maxrow : Nat) (vt : VAlignKind) (va : Int) (rows : Nat) : Int :=
  max 0 (match vt with
  | .top => 0
  | .bottom => (maxrow : Int) - rows
  | .middle => Int.fdiv ((maxrow : Int) - rows) 2
  | .relative => Int.fdiv (((maxrow : Int) - rows) * va) 100)

/-- `ListBox._set_focus_valign_complete`. -/
def ListBox.setFocusValignComplete (lb : ListBox) (maxcol maxrow : Nat) (focusFlag : Bool) :
    Except LBErr ListBox :=
  match lb.valignPending with
  | none => .error .typeError
  | some (vt, va) =>
    let lb1 := { lb with valignPending := none, pending := Pending.none }
    match lb1.items[lb1.focus]? with
    | none => .ok lb1
    | some fw =>
      let rtop := calculateTopFiller maxrow vt va fw.height
      lb1.shiftFocus maxcol maxrow rtop

/-- The scan of `_set_focus_first_selectable` over the (possibly truncated)
`fill_below` list. -/
def firstSelectableScan (lb : ListBox) (maxcol maxrow : Nat) :
    List VisibleInfoFillItem → Int → Except LBErr ListBox
  | [], _ => .ok lb
  | f :: rest, newRowOffset =>
    if f.widget.selectable then do
      let lb1 ← lb.setFocusBody f.position
      lb1.shiftFocus maxcol maxrow newRowOffset
    else firstSelectableScan lb maxcol maxrow rest (newRowOffset + f.rows)

/-- `ListBox._set_focus_first_selectable`: choose the first visible,
selectable widget below the current focus. -/
def ListBox.setFocusFirstSelectable (lb : ListBox) (maxcol maxrow : Nat) (focusFlag : Bool) :
    Except LBErr ListBox := do
  let lb1 := { lb with valignPending := none, pending := Pending.none }
  let vi? ← lb1.calcVisible maxcol maxrow focusFlag
  match vi? with
  | none => .ok lb1
  | some vi =>
    if vi.middle.focusWidget.selectable then .ok lb1
    else
      let fillBelow := if vi.bottom.trim ≠ 0 then vi.bottom.fill.dropLast else vi.bottom.fill
      firstSelectableScan lb1 maxcol maxrow fillBelow (vi.middle.offset + vi.middle.focusRows)

/-- The `fill_above` scan of `_set_focus_complete`'s restore path. -/
def restoreAboveScan (position : Nat) :
    List VisibleInfoFillItem → Int → Option (Nat × Int)
  | [], _ => none
  | f :: rest, offset =>
    let offset := offset - f.rows
    if f.position = position then some (f.position, offset)
    else restoreAboveScan position rest offset

/-- The `fill_below` scan of `_set_focus_complete`'s restore path. -/
def restoreBelowScan (position : Nat) :
    List VisibleInfoFillItem → Int → Option (Nat × Int)
  | [], _ => none
  | f :: rest, offset =>
    if f.position = position then some (f.position, offset)
    else restoreBelowScan position rest (offset + f.rows)

/-- `ListBox._set_focus_complete`: finish a pending focus change once the
viewport size is known. -/
def ListBox.setFocusComplete (lb : ListBox) (maxcol maxrow : Nat) (focusFlag : Bool) :
    Except LBErr ListBox :=
  if lb.pending = Pending.firstSelectable then
    lb.setFocusFirstSelectable maxcol maxrow focusFlag
  else if lb.valignPending ≠ none then
    lb.setFocusValignComplete maxcol maxrow focusFlag
  else
    match lb.pending with
    | .restore comingFrom priorPos =>
      let lb1 := { lb with pending := Pending.none }
      let position? := (lb1.items[lb1.focus]?).map (fun _ => lb1.focus)
      if position? = some priorPos then .ok lb1
      else do
        let lb2 ← lb1.setFocusBody priorPos
        let vi? ← lb2.calcVisible maxcol maxrow focusFlag
        match vi?, position? with
        | some vi, some position =>
          (match restoreAboveScan position vi.top.fill vi.middle.offset with
          | some (pos, offset) =>
            lb2.changeFocus maxcol maxrow pos offset (some Direction.below) none none
          | none =>
            match restoreBelowScan position vi.bottom.fill
                (vi.middle.offset + vi.middle.focusRows) with
            | some (pos, offset) =>
              lb2.changeFocus maxcol maxrow pos offset (some Direction.above) none none
            | none => do
              let lb3 ← lb2.setFocusBody position
              match lb3.items[lb3.focus]? with
              | none => .error .attrError
              | some widget =>
                let rows := widget.height
                let offset : Int :=
                  match comingFrom with
                  | some Direction.below => 0
                  | some Direction.above => (maxrow : Int) - rows
                  | none => Int.fdiv ((maxrow : Int) - rows) 2
                lb3.shiftFocus maxcol maxrow offset)
        | _, _ => .error .typeError
    | _ => .error .typeError

/-- `ListBox.calculate_visible` in full: resolve any pending focus change
(step 0), then run the pure partition computation; returns the partition
(or `none` on an empty walker) together with the possibly-mutated state. -/
def ListBox.calculateVisible (lb : ListBox) (maxcol maxrow : Nat) (focusFlag : Bool) :
    Except LBErr (Option VisibleInfo × ListBox) := do
  let lb1 ← if lb.pending ≠ Pending.none ∨ lb.valignPending ≠ none then
      lb.setFocusComplete maxcol maxrow focusFlag
    else pure lb
  let vi? ← lb1.calcVisible maxcol maxrow focusFlag
  pure (vi?, lb1)

/-- Whether a key was consumed (`None` returned) or bubbles to the caller. -/
inductive KeyResult where
  | handled
  | unhandled
deriving Repr, DecidableEq

/-- Outcome of the `fill_below` scan of `_keypress_down`; the `done` case
carries the leaked loop variables `widget`, `pos`, `rows`, `row_offset`. -/
inductive BelowScan where
  | found (position : Nat) (rowOffset : Int)
  | done (widget : Option Item) (position : Nat) (rows : Nat) (rowOffset : Int)
deriving Repr, DecidableEq

/-- Lines 1453-1460 of `_keypress_down`: look for a selectable, non-0-height
widget in `fill_below`. -/
def scanFillBelow : List VisibleInfoFillItem → Option Item → Nat → Nat → Int → BelowScan
  | [], w, pos, rows, ro => .done w pos rows ro
  | f :: rest, _, _, _, ro =>
    if f.rows ≠ 0 ∧ f.widget.selectable then .found f.position ro
    else scanFillBelow rest (some f.widget) f.position f.rows (ro + f.rows)

/-- Outcome of the scroll loop of `_keypress_down`: a selectable candidate,
running off the end of the sequence (key unhandled), or stopping at
`row_offset >= maxrow` with the leaked loop variables. -/
inductive ScrollScan where
  | found (position : Nat) (rowOffset : Int)
  | offEnd
  | stop (widget : Option Item) (position : Nat) (rows : Nat) (rowOffset : Int)
deriving Repr, DecidableEq

/-- The loop body of lines 1466-1477 of `_keypress_down`, structural on
`gas = items.length - pos` (when `gas = 0`, `get_next` returns the end
marker, so both bodies agree). -/
def scrollBelowGo (items : List Item) (maxrow : Nat) : (gas : Nat) → (pos : Nat) →
    (w : Option Item) → (rows : Nat) → (ro : Int) → ScrollScan
  | 0, pos, w, rows, ro =>
    if ro < (maxrow : Int) then .offEnd else .stop w pos rows ro
  | gas + 1, pos, w, rows, ro =>
    if ro < (maxrow : Int) then
      match getNext items pos with
      | none => .offEnd
      | some (nw, np) =>
        let nRows := nw.height
        if nRows ≠ 0 ∧ nw.selectable then .found np ro
        else scrollBelowGo items maxrow gas np (some nw) nRows (ro + nRows)
    else .stop w pos rows ro

/-- Lines 1466-1477 of `_keypress_down`: scroll in new candidate widgets
below while `row_offset < maxrow`. -/
def scrollBelow (items : List Item) (maxrow : Nat) (pos : Nat) (w : Option Item)
    (rows : Nat) (ro : Int) : ScrollScan :=
  scrollBelowGo items maxrow (items.length - pos) pos w rows ro

/-- `ListBox._keypress_down` (lines 1439-1516). -/
def ListBox.keypressDownCore (lb : ListBox) (maxcol maxrow : Nat) :
    Except LBErr (KeyResult × ListBox) := do
  let vi? ← lb.calcVisible maxcol maxrow true
  match vi? with
  | none => pure (.unhandled, lb)
  | some vi =>
    let focusRowOffset := vi.middle.offset
    let focusWidget := vi.middle.focusWidget
    let focusPos := vi.middle.focusPos
    let focusRows := vi.middle.focusRows
    let cursor := vi.middle.cursor
    match scanFillBelow vi.bottom.fill none focusPos focusRows (focusRowOffset + focusRows) with
    | .found pos ro => do
      let lb1 ← lb.changeFocus maxcol maxrow pos ro (some Direction.above) none none
      pure (.handled, lb1)
    | .done w0 pos0 rows0 ro0 =>
      match scrollBelow lb.items maxrow pos0 w0 rows0 (ro0 - 1) with
      | .offEnd => pure (.unhandled, lb)
      | .found pos ro => do
        let lb1 ← lb.changeFocus maxcol maxrow pos ro (some Direction.above) none none
        pure (.handled, lb1)
      | .stop w pos rows ro =>
        if ¬ focusWidget.selectable ∨ focusRowOffset + focusRows - 1 ≤ 0 then
          match w with
          | none => do
            let lb1 ← lb.shiftFocus maxcol maxrow (ro - rows)
            pure (.handled, lb1)
          | some _ => do
            let lb1 ← lb.changeFocus maxcol maxrow pos (ro - rows) (some Direction.above) none none
            pure (.handled, lb1)
        else
          match cursor with
          | some (_x, y) =>
            if (y : Int) + focusRowOffset - 1 < 0 then
              match w with
              | none =>
                (match getNext lb.items pos with
                | none => pure (.handled, lb)
                | some (_nw, np) => do
                  let ro1 := if (maxrow : Int) ≤ ro then (maxrow : Int) - 1 else ro
                  let lb1 ← lb.changeFocus maxcol maxrow np ro1 (some Direction.above) none none
                  pure (.handled, lb1))
              | some _ => do
                let ro0 := ro - rows
                let ro1 := if (maxrow : Int) ≤ ro0 then (maxrow : Int) - 1 else ro0
                let lb1 ← lb.changeFocus maxcol maxrow pos ro1 (some Direction.above) none none
                pure (.handled, lb1)
            else do
              let lb1 ← lb.shiftFocus maxcol maxrow (focusRowOffset - 1)
              pure (.handled, lb1)
          | none => do
            let lb1 ← lb.shiftFocus maxcol maxrow (focusRowOffset - 1)
            pure (.handled, lb1)

/-- `ListBox.keypress` specialised to a key mapped to `Command.DOWN`, with
focus widgets that never consume keys (the embedded items return the key
unchanged): resolve any pending focus change, return the key unhandled on an
empty walker, otherwise delegate to `_keypress_down` and convert the result
via `actual_key`. -/
def ListBox.keypressDown (lb : ListBox) (maxcol maxrow : Nat) :
    Except LBErr (KeyResult × ListBox) := do
  let lb1 ← if lb.pending ≠ Pending.none ∨ lb.valignPending ≠ none then
      lb.setFocusComplete maxcol maxrow true
    else pure lb
  match lb1.items[lb1.focus]? with
  | none => pure (.unhandled, lb1)
  | some _ => lb1.keypressDownCore maxcol maxrow

/-- Modelled from the spec: the canvas module is not among the sources.  A
surface is reduced to its row and column counts plus a blank flag; per the
spec an item's rendered surface has `rows()` equal to its measured height. -/
structure RCanvas where
  rows : Nat
  cols : Nat
  blank : Bool
deriving Repr, DecidableEq

/-- `SolidCanvas(" ", maxcol, maxrow)`: a blank filler surface. -/
def solidCanvas (maxcol maxrow : Nat) : RCanvas := ⟨maxrow, maxcol, true⟩

/-- An item's rendered surface (contract-abiding: `rows() ==` measured
height). -/
def renderItem (w : Item) (maxcol : Nat) : RCanvas := ⟨w.height, maxcol, false⟩

/-- The per-widget `w_rows != canvas.rows()` validation loops of
`ListBox.render`, returning the accumulated row count. -/
def checkFillRows (maxcol : Nat) : List VisibleInfoFillItem → Except LBErr Nat
  | [] => .ok 0
  | f :: rest =>
    if f.rows ≠ (renderItem f.widget maxcol).rows then .error (.widgetRowsMismatch f.position)
    else do
      let r ← checkFillRows maxcol rest
      .ok (f.rows + r)

/-- The body of `render`'s completeness probe (lines 791-812), structural on
`gas = items.length - nextPos` (when `gas = 0`, `get_next` returns the end
marker, so both bodies agree): starting from the pair returned by
`get_next(bottom_pos)`, confirm every unrendered position is truly
0-height, and report a `next` self-loop as a fatal walker bug. -/
def renderProbeGoAux (items : List Item) (maxcol : Nat) (rendered : List Nat) :
    (gas : Nat) → (widget : Item) → (nextPos : Nat) → Except LBErr Unit
  | 0, widget, nextPos =>
    if nextPos ∈ rendered then .ok ()
    else if widget.height ≠ 0 then .error (.contentsTooShortWidget nextPos)
    else .ok ()
  | gas + 1, widget, nextPos =>
    if nextPos ∈ rendered then .ok ()
    else if widget.height ≠ 0 then .error (.contentsTooShortWidget nextPos)
    else
      match getNext items nextPos with
      | none => .ok ()
      | some (w2, nnp) =>
        if nextPos = nnp then .error (.selfLoopPosition nextPos)
        else renderProbeGoAux items maxcol rendered gas w2 nnp

/-- `render`'s completeness probe loop. -/
def renderProbeGo (items : List Item) (maxcol : Nat) (rendered : List Nat)
    (widget : Item) (nextPos : Nat) : Except LBErr Unit :=
  renderProbeGoAux items maxcol rendered (items.length - nextPos) widget nextPos

/-- `ListBox.render` (lines 698-816) over the modelled surfaces. -/
def ListBox.render (lb : ListBox) (maxcol maxrow : Nat) (focusFlag : Bool) :
    Except LBErr (RCanvas × ListBox) := do
  let r ← lb.calculateVisible maxcol maxrow focusFlag
  match r.1 with
  | none => pure (solidCanvas maxcol maxrow, r.2)
  | some vi => do
    let lb1 := r.2
    let aboveRows ← checkFillRows maxcol vi.top.fill.reverse
    if vi.middle.focusRows ≠ (renderItem vi.middle.focusWidget maxcol).rows then
      .error (.widgetRowsMismatch vi.middle.focusPos)
    else do
    -- the declared-vs-rendered cursor check cannot fire on the modelled
    -- surfaces (they render the declared cursor) and is omitted
    let belowRows ← checkFillRows maxcol vi.bottom.fill
    let rows0 := aboveRows + vi.middle.focusRows + belowRows
    let rows1 := rows0 - vi.top.trim - vi.bottom.trim
    if maxrow < rows1 then .error .contentsTooLong
    else if rows1 < maxrow then
      if vi.bottom.trim ≠ 0 then .error .contentsTooShortTrim
      else do
        let bottomPos := match vi.bottom.fill.getLast? with
          | some f => f.position
          | none => vi.middle.focusPos
        let rendered := vi.top.fill.map (fun f => f.position) ++ [vi.middle.focusPos]
          ++ vi.bottom.fill.map (fun f => f.position)
        match getNext lb1.items bottomPos with
        | none => pure (⟨maxrow, maxcol, false⟩, lb1)
        | some (w1, p1) => do
          renderProbeGo lb1.items maxcol rendered w1 p1
          pure (⟨maxrow, maxcol, false⟩, lb1)
    else pure (⟨maxrow, maxcol, false⟩, lb1)

/-- The `"top"`/`"bottom"` markers of `ends_visible`. -/
inductive EndMark where
  | top
  | bottom
deriving Repr, DecidableEq

/-- The `row_offset`/`pos` fold over `fill_below` in `ends_visible`. -/
def endsBelowFold : List VisibleInfoFillItem → Int × Nat → Int × Nat
  | [], acc => acc
  | f :: rest, acc => endsBelowFold rest (acc.1 + f.rows, f.position)

/-- `ListBox.ends_visible` (lines 1954-1987). -/
def ListBox.endsVisible (lb : ListBox) (maxcol maxrow : Nat) (focusFlag : Bool) :
    Except LBErr (List EndMark × ListBox) := do
  let r ← lb.calculateVisible maxcol maxrow focusFlag
  match r.1 with
  | none => pure ([EndMark.top, EndMark.bottom], r.2)
  | some vi =>
    let lb1 := r.2
    let result : List EndMark := []
    let result :=
      if vi.bottom.trim = 0 then
        let acc := endsBelowFold vi.bottom.fill
          (vi.middle.offset + vi.middle.focusRows, vi.middle.focusPos)
        if acc.1 < (maxrow : Int) ∨ getNext lb1.items acc.2 = none then
          result ++ [EndMark.bottom]
        else result
      else result
    let result :=
      if vi.top.trim = 0 then
        let pos := match vi.top.fill.getLast? with
          | some f => f.position
          | none => vi.middle.focusPos
        if getPrev lb1.items pos = none then EndMark.top :: result else result
      else result
    pure (result, lb1)

/-! ### The traversal loops over an abstract Item Sequence

`calculate_visible` and the render probe interact with the body only through
`get_next`/`get_prev`, so for the claims about arbitrary (possibly
ill-behaved or infinite) walkers the same loops are embedded over an
abstract walker with an explicit fuel bound; running out of fuel returns
`none`. -/

/-- The Item Sequence capability over opaque positions: `get_next` and
`get_prev` (the focus pair is supplied separately where needed). -/
structure Walker (π : Type) where
  next : π → Option (Item × π)
  prev : π → Option (Item × π)

/-- A fill entry over opaque positions. -/
structure FillItemW (π : Type) where
  widget : Item
  position : π
  rows : Nat
deriving Repr, DecidableEq

/-- Result of the fueled step-2 loop. -/
structure AboveOutW (π : Type) where
  offsetRows : Nat
  trimTop : Nat
  fillAbove : List (FillItemW π)
  topPos : π
deriving Repr, DecidableEq

/-- Step 2 of `calculate_visible` over an abstract walker, with fuel. -/
def collectAboveW {π : Type} (w : Walker π) :
    Nat → π → Nat → Nat → Nat → List (FillItemW π) → π → Option (AboveOutW π)
  | 0, _, _, _, _, _, _ => none
  | fuel + 1, pos, fillLines, offsetRows, trimTop, fillAbove, topPos =>
    if fillLines = 0 then some ⟨offsetRows, trimTop, fillAbove, topPos⟩
    else
      match w.prev pos with
      | none => some ⟨offsetRows - fillLines, trimTop, fillAbove, topPos⟩
      | some (prev, p) =>
        let pRows := prev.height
        let fillAbove' := if pRows ≠ 0 then fillAbove ++ [⟨prev, p, pRows⟩] else fillAbove
        if fillLines < pRows then some ⟨offsetRows, pRows - fillLines, fillAbove', p⟩
        else collectAboveW w fuel p (fillLines - pRows) offsetRows trimTop fillAbove' p

/-- Result of the fueled step-3 loop. -/
structure BelowOutW (π : Type) where
  fillLines : Int
  trimBottom : Nat
  fillBelow : List (FillItemW π)
deriving Repr, DecidableEq

/-- Step 3 of `calculate_visible` over an abstract walker, with fuel. -/
def collectBelowW {π : Type} (w : Walker π) :
    Nat → π → Int → Nat → List (FillItemW π) → Option (BelowOutW π)
  | 0, _, _, _, _ => none
  | fuel + 1, pos, fillLines, trimBottom, fillBelow =>
    if fillLines ≤ 0 then some ⟨fillLines, trimBottom, fillBelow⟩
    else
      match w.next pos with
      | none => some ⟨fillLines, trimBottom, fillBelow⟩
      | some (nxt, p) =>
        let nRows := nxt.height
        let fillBelow' := if nRows ≠ 0 then fillBelow ++ [⟨nxt, p, nRows⟩] else fillBelow
        if fillLines < (nRows : Int) then
          some ⟨fillLines - nRows, ((nRows : Int) - fillLines).toNat, fillBelow'⟩
        else collectBelowW w fuel p (fillLines - nRows) trimBottom fillBelow'

/-- Result of the fueled step-4 refill loop. -/
structure TopAgainOutW (π : Type) where
  offsetRows : Nat
  trimTop : Nat
  fillAbove : List (FillItemW π)
  fillLines : Nat
deriving Repr, DecidableEq

/-- Step 4 of `calculate_visible` over an abstract walker, with fuel. -/
def fillTopAgainW {π : Type} (w : Walker π) :
    Nat → π → Nat → Nat → Nat → List (FillItemW π) → Option (TopAgainOutW π)
  | 0, _, _, _, _, _ => none
  | fuel + 1, pos, fillLines, offsetRows, trimTop, fillAbove =>
    if fillLines = 0 then some ⟨offsetRows, trimTop, fillAbove, 0⟩
    else
      match w.prev pos with
      | none => some ⟨offsetRows, trimTop, fillAbove, fillLines⟩
      | some (prev, p) =>
        let pRows := prev.height
        let fillAbove' := fillAbove ++ [⟨prev, p, pRows⟩]
        if fillLines < pRows then some ⟨offsetRows + fillLines, pRows - fillLines, fillAbove', 0⟩
        else fillTopAgainW w fuel p (fillLines - pRows) (offsetRows + pRows) trimTop fillAbove'

/-- The partition over opaque positions. -/
structure VisibleInfoW (π : Type) where
  offset : Int
  focusWidget : Item
  focusPos : π
  focusRows : Nat
  cursor : Option (Nat × Nat)
  top : Nat × List (FillItemW π)
  bottom : Nat × List (FillItemW π)
deriving Repr, DecidableEq

/-- Steps 1-5 of `calculate_visible` over an abstract walker, with fuel
for each traversal loop; the focus pair is the walker's `get_focus`
result. -/
def calcVisibleW {π : Type} (w : Walker π) (focusWidget : Item) (focusPos : π)
    (offsetRows0 insetNum insetDen : Nat) (maxcol maxrow : Nat) (focusFlag : Bool)
    (fuel : Nat) : Option (Except LBErr (VisibleInfoW π)) :=
  match getFocusOffsetInset focusWidget offsetRows0 insetNum insetDen with
  | .error e => some (.error e)
  | .ok oi =>
    let offsetRows2 := clampOffset maxrow oi.1
    let cursor := if maxrow ≠ 0 ∧ focusWidget.selectable ∧ focusFlag then
      focusWidget.cursor else none
    let oi3 := adjustForCursor maxrow offsetRows2 oi.2 cursor
    let focusRows := focusWidget.height
    match collectAboveW w fuel focusPos oi3.1 oi3.1 oi3.2 [] focusPos with
    | none => none
    | some a =>
      let trimBottom0 := ((focusRows : Int) + a.offsetRows - oi3.2 - maxrow).toNat
      let fillLines0 : Int := (maxrow : Int) - focusRows - a.offsetRows + oi3.2
      match collectBelowW w fuel focusPos fillLines0 trimBottom0 [] with
      | none => none
      | some b =>
        let adj := adjustTrimTop b.fillLines.toNat a.trimTop a.offsetRows
        match fillTopAgainW w fuel a.topPos adj.1 adj.2.2 adj.2.1 a.fillAbove with
        | none => none
        | some t =>
          some (.ok ⟨(t.offsetRows : Int) - oi3.2, focusWidget, focusPos, focusRows, cursor,
                     (t.trimTop, t.fillAbove), (b.trimBottom, b.fillBelow)⟩)

/-- Errors of the render probe over opaque positions. -/
inductive WErr (π : Type) where
  | contentsTooShortWidget (position : π)
  | selfLoopPosition (position : π)
deriving Repr, DecidableEq

/-- The body of `render`'s completeness probe over an abstract walker, with
fuel: confirm every unrendered position is 0-height and report a `next`
self-loop (`next_pos == next_next_pos`) as a fatal walker bug. -/
def renderProbeGoW {π : Type} [DecidableEq π] (w : Walker π) (maxcol : Nat)
    (rendered : List π) : Nat → Item → π → Option (Except (WErr π) Unit)
  | 0, _, _ => none
  | fuel + 1, widget, nextPos =>
    if nextPos ∈ rendered then some (.ok ())
    else if widget.height ≠ 0 then some (.error (.contentsTooShortWidget nextPos))
    else
      match w.next nextPos with
      | none => some (.ok ())
      | some (w2, nnp) =>
        if nextPos = nnp then some (.error (.selfLoopPosition nextPos))
        else renderProbeGoW w maxcol rendered fuel w2 nnp

/-- The walker determined by a `SimpleListWalker` body. -/
def listWalker (items : List Item) : Walker Nat :=
  ⟨getNext items, getPrev items⟩

/-- Total measured height of a sequence. -/
def totalHeight (items : List Item) : Nat :=
  (items.map (fun w => w.height)).sum

/-- The sum of the recorded `rows` of a fill list (the "heights in the fill
list" of the conservation property; each entry's `rows` is the measured
height of the widget at the time it was appended). -/
def sumFill (l : List VisibleInfoFillItem) : Nat :=
  (l.map (fun f => f.rows)).sum

/-! ### Loop lemmas -/

theorem calcVisiblePure_nil (focus offsetRows0 insetNum insetDen maxcol maxrow : Nat)
    (focusFlag : Bool) :
    calcVisiblePure [] focus offsetRows0 insetNum insetDen maxcol maxrow focusFlag = .ok none := by
  unfold calcVisiblePure
  cases focus <;> rfl

section StepEquations

variable {items : List Item}

theorem getPrev_eq_some {pos : Nat} {w : Item} {p : Nat}
    (h : getPrev items pos = some (w, p)) :
    pos = p + 1 ∧ items[p]? = some w := by
  cases pos with
  | zero => simp [getPrev] at h
  | succ n =>
    simp only [getPrev, Option.map_eq_some'] at h
    obtain ⟨a, ha, h2⟩ := h
    cases h2
    exact ⟨rfl, ha⟩

theorem getPrev_eq_none {pos : Nat} (h : getPrev items pos = none) :
    pos = 0 ∨ ∃ p, pos = p + 1 ∧ items[p]? = none := by
  cases pos with
  | zero => exact Or.inl rfl
  | succ n =>
    simp only [getPrev, Option.map_eq_none'] at h
    exact Or.inr ⟨n, rfl, h⟩

theorem getNext_eq_some {pos : Nat} {w : Item} {p : Nat}
    (h : getNext items pos = some (w, p)) :
    p = pos + 1 ∧ pos + 1 < items.length ∧ items[pos + 1]? = some w := by
  simp only [getNext] at h
  split at h
  · simp at h
  · rename_i hlen
    simp only [Option.map_eq_some'] at h
    obtain ⟨a, ha, h2⟩ := h
    cases h2
    exact ⟨rfl, by omega, ha⟩

theorem collectAbove_base {pos offsetRows trimTop : Nat}
    {fa : List VisibleInfoFillItem} {tp : Nat} :
    collectAbove items pos 0 offsetRows trimTop fa tp = ⟨offsetRows, trimTop, fa, tp⟩ := by
  cases pos <;> simp [collectAbove]

theorem collectAbove_none {pos fl offsetRows trimTop : Nat}
    {fa : List VisibleInfoFillItem} {tp : Nat}
    (h1 : fl ≠ 0) (h2 : getPrev items pos = none) :
    collectAbove items pos fl offsetRows trimTop fa tp =
      ⟨offsetRows - fl, trimTop, fa, tp⟩ := by
  rcases getPrev_eq_none h2 with rfl | ⟨p, rfl, hg⟩
  · simp [collectAbove, h1]
  · simp [collectAbove, h1, hg]

theorem collectAbove_straddle {pos fl offsetRows trimTop : Nat}
    {fa : List VisibleInfoFillItem} {tp : Nat} {prev : Item} {p : Nat}
    (h1 : fl ≠ 0) (h2 : getPrev items pos = some (prev, p)) (h3 : fl < prev.height) :
    collectAbove items pos fl offsetRows trimTop fa tp =
      ⟨offsetRows, prev.height - fl, fa ++ [⟨prev, p, prev.height⟩], p⟩ := by
  obtain ⟨rfl, hg⟩ := getPrev_eq_some h2
  have hnz : prev.height ≠ 0 := by omega
  simp [collectAbove, h1, hg, hnz, h3]

theorem collectAbove_step {pos fl offsetRows trimTop : Nat}
    {fa : List VisibleInfoFillItem} {tp : Nat} {prev : Item} {p : Nat}
    (h1 : fl ≠ 0) (h2 : getPrev items pos = some (prev, p)) (h3 : ¬ fl < prev.height) :
    collectAbove items pos fl offsetRows trimTop fa tp =
      collectAbove items p (fl - prev.height) offsetRows trimTop
        (if prev.height ≠ 0 then fa ++ [⟨prev, p, prev.height⟩] else fa) p := by
  obtain ⟨rfl, hg⟩ := getPrev_eq_some h2
  simp [collectAbove, h1, hg, h3]

theorem collectBelow_base {pos : Nat} {fl : Int} {tb : Nat}
    {fb : List VisibleInfoFillItem} (h : fl ≤ 0) :
    collectBelow items pos fl tb fb = ⟨fl, tb, fb⟩ := by
  unfold collectBelow
  cases items.length - pos with
  | zero => simp [collectBelowGo]
  | succ g => simp [collectBelowGo, h]

theorem collectBelow_none {pos : Nat} {fl : Int} {tb : Nat}
    {fb : List VisibleInfoFillItem}
    (h1 : ¬ fl ≤ 0) (h2 : getNext items pos = none) :
    collectBelow items pos fl tb fb = ⟨fl, tb, fb⟩ := by
  unfold collectBelow
  cases items.length - pos with
  | zero => simp [collectBelowGo]
  | succ g => simp [collectBelowGo, h1, h2]

theorem collectBelow_straddle {pos : Nat} {fl : Int} {tb : Nat}
    {fb : List VisibleInfoFillItem} {nxt : Item} {p : Nat}
    (h1 : ¬ fl ≤ 0) (h2 : getNext items pos = some (nxt, p)) (h3 : fl < (nxt.height : Int)) :
    collectBelow items pos fl tb fb =
      ⟨fl - nxt.height, ((nxt.height : Int) - fl).toNat, fb ++ [⟨nxt, p, nxt.height⟩]⟩ := by
  obtain ⟨rfl, hlen, hg⟩ := getNext_eq_some h2
  have hnz : nxt.height ≠ 0 := by
    intro h0
    rw [h0] at h3
    omega
  unfold collectBelow
  cases hgas : items.length - pos with
  | zero => omega
  | succ g => simp [collectBelowGo, h1, h2, h3, hnz]

theorem collectBelow_step {pos : Nat} {fl : Int} {tb : Nat}
    {fb : List VisibleInfoFillItem} {nxt : Item} {p : Nat}
    (h1 : ¬ fl ≤ 0) (h2 : getNext items pos = some (nxt, p)) (h3 : ¬ fl < (nxt.height : Int)) :
    collectBelow items pos fl tb fb =
      collectBelow items p (fl - nxt.height) tb
        (if nxt.height ≠ 0 then fb ++ [⟨nxt, p, nxt.height⟩] else fb) := by
  obtain ⟨rfl, hlen, hg⟩ := getNext_eq_some h2
  unfold collectBelow
  have hgas : items.length - pos = (items.length - (pos + 1)) + 1 := by omega
  rw [hgas]
  simp [collectBelowGo, h1, h2, h3]

theorem fillTopAgain_base {pos offsetRows trimTop : Nat}
    {fa : List VisibleInfoFillItem} :
    fillTopAgain items pos 0 offsetRows trimTop fa = ⟨offsetRows, trimTop, fa, 0⟩ := by
  cases pos <;> simp [fillTopAgain]

theorem fillTopAgain_none {pos fl offsetRows trimTop : Nat}
    {fa : List VisibleInfoFillItem}
    (h1 : fl ≠ 0) (h2 : getPrev items pos = none) :
    fillTopAgain items pos fl offsetRows trimTop fa = ⟨offsetRows, trimTop, fa, fl⟩ := by
  rcases getPrev_eq_none h2 with rfl | ⟨p, rfl, hg⟩
  · simp [fillTopAgain, h1]
  · simp [fillTopAgain, h1, hg]

theorem fillTopAgain_straddle {pos fl offsetRows trimTop : Nat}
    {fa : List VisibleInfoFillItem} {prev : Item} {p : Nat}
    (h1 : fl ≠ 0) (h2 : getPrev items pos = some (prev, p)) (h3 : fl < prev.height) :
    fillTopAgain items pos fl offsetRows trimTop fa =
      ⟨offsetRows + fl, prev.height - fl, fa ++ [⟨prev, p, prev.height⟩], 0⟩ := by
  obtain ⟨rfl, hg⟩ := getPrev_eq_some h2
  simp [fillTopAgain, h1, hg, h3]

theorem fillTopAgain_step {pos fl offsetRows trimTop : Nat}
    {fa : List VisibleInfoFillItem} {prev : Item} {p : Nat}
    (h1 : fl ≠ 0) (h2 : getPrev items pos = some (prev, p)) (h3 : ¬ fl < prev.height) :
    fillTopAgain items pos fl offsetRows trimTop fa =
      fillTopAgain items p (fl - prev.height) (offsetRows + prev.height) trimTop
        (fa ++ [⟨prev, p, prev.height⟩]) := by
  obtain ⟨rfl, hg⟩ := getPrev_eq_some h2
  simp [fillTopAgain, h1, hg, h3]

theorem scrollBelow_stop {maxrow pos : Nat} {w : Option Item} {rows : Nat} {ro : Int}
    (h : ¬ ro < (maxrow : Int)) :
    scrollBelow items maxrow pos w rows ro = .stop w pos rows ro := by
  unfold scrollBelow
  cases items.length - pos with
  | zero => simp [scrollBelowGo, h]
  | succ g => simp [scrollBelowGo, h]

theorem scrollBelow_offEnd {maxrow pos : Nat} {w : Option Item} {rows : Nat} {ro : Int}
    (h1 : ro < (maxrow : Int)) (h2 : getNext items pos = none) :
    scrollBelow items maxrow pos w rows ro = .offEnd := by
  unfold scrollBelow
  cases items.length - pos with
  | zero => simp [scrollBelowGo, h1]
  | succ g => simp [scrollBelowGo, h1, h2]

theorem scrollBelow_found {maxrow pos : Nat} {w : Option Item} {rows : Nat} {ro : Int}
    {nw : Item} {np : Nat}
    (h1 : ro < (maxrow : Int)) (h2 : getNext items pos = some (nw, np))
    (h3 : nw.height ≠ 0 ∧ nw.selectable) :
    scrollBelow items maxrow pos w rows ro = .found np ro := by
  obtain ⟨rfl, hlen, hg⟩ := getNext_eq_some h2
  unfold scrollBelow
  cases hgas : items.length - pos with
  | zero => omega
  | succ g => simp [scrollBelowGo, h1, h2, h3]

theorem scrollBelow_step {maxrow pos : Nat} {w : Option Item} {rows : Nat} {ro : Int}
    {nw : Item} {np : Nat}
    (h1 : ro < (maxrow : Int)) (h2 : getNext items pos = some (nw, np))
    (h3 : ¬ (nw.height ≠ 0 ∧ nw.selectable)) :
    scrollBelow items maxrow pos w rows ro =
      scrollBelow items maxrow np (some nw) nw.height (ro + nw.height) := by
  obtain ⟨rfl, hlen, hg⟩ := getNext_eq_some h2
  unfold scrollBelow
  have hgas : items.length - pos = (items.length - (pos + 1)) + 1 := by omega
  rw [hgas]
  simp [scrollBelowGo, h1, h2, h3]

end StepEquations

theorem collectBelowGo_fill_ne_zero (items : List Item) :
    ∀ (gas pos : Nat) (fl : Int) (tb : Nat) (fb : List VisibleInfoFillItem),
      (∀ f ∈ fb, f.rows ≠ 0) →
      ∀ f ∈ (collectBelowGo items gas pos fl tb fb).fillBelow, f.rows ≠ 0 := by
  intro gas
  induction gas with
  | zero =>
    intro pos fl tb fb hfb
    simpa [collectBelowGo] using hfb
  | succ g ih =>
    intro pos fl tb fb hfb
    rw [collectBelowGo]
    by_cases hfl : fl ≤ 0
    · simpa [hfl] using hfb
    · rw [if_neg hfl]
      cases hnext : getNext items pos with
      | none => simpa using hfb
      | some pr =>
        obtain ⟨nxt, p⟩ := pr
        dsimp only
        have hmem : ∀ f ∈ (if nxt.height ≠ 0 then
            fb ++ [(⟨nxt, p, nxt.height⟩ : VisibleInfoFillItem)] else fb), f.rows ≠ 0 := by
          by_cases hnz : nxt.height ≠ 0
          · simp only [if_pos hnz]
            intro f hf
            rcases List.mem_append.mp hf with hl | hr
            · exact hfb f hl
            · simp only [List.mem_singleton] at hr
              subst hr
              exact hnz
          · simp only [if_neg hnz]
            exact hfb
        by_cases hstr : fl < (nxt.height : Int)
        · simp only [if_pos hstr]
          exact hmem
        · simp only [if_neg hstr]
          exact ih p (fl - nxt.height) tb _ hmem

theorem collectBelow_fill_ne_zero (items : List Item) :
    ∀ (pos : Nat) (fl : Int) (tb : Nat) (fb : List VisibleInfoFillItem),
      (∀ f ∈ fb, f.rows ≠ 0) →
      ∀ f ∈ (collectBelow items pos fl tb fb).fillBelow, f.rows ≠ 0 := by
  intro pos fl tb fb hfb
  exact collectBelowGo_fill_ne_zero items _ pos fl tb fb hfb

/-! ### Fueled-loop lemmas for the abstract walker -/

theorem collectAboveW_ne_none {π : Type} (w : Walker π) (μ : π → Nat)
    (hp : ∀ p i q, w.prev p = some (i, q) → μ q < μ p) :
    ∀ {fuel : Nat} {pos : π}, μ pos < fuel →
    ∀ {fl offsetRows trimTop : Nat} {fa : List (FillItemW π)} {tp : π},
      collectAboveW w fuel pos fl offsetRows trimTop fa tp ≠ none := by
  intro fuel
  induction fuel with
  | zero =>
    intro pos h
    omega
  | succ n ih =>
    intro pos h fl o t fa tp
    rw [collectAboveW]
    split
    · simp
    · cases hw : w.prev pos with
      | none => simp [hw]
      | some pr =>
        obtain ⟨prev, p⟩ := pr
        simp only [hw]
        split
        · simp
        · exact ih (by have := hp pos prev p hw; omega)

theorem collectBelowW_ne_none {π : Type} (w : Walker π) (μ : π → Nat)
    (hn : ∀ p i q, w.next p = some (i, q) → μ q < μ p) :
    ∀ {fuel : Nat} {pos : π}, μ pos < fuel →
    ∀ {fl : Int} {tb : Nat} {fb : List (FillItemW π)},
      collectBelowW w fuel pos fl tb fb ≠ none := by
  intro fuel
  induction fuel with
  | zero =>
    intro pos h
    omega
  | succ n ih =>
    intro pos h fl tb fb
    rw [collectBelowW]
    split
    · simp
    · cases hw : w.next pos with
      | none => simp [hw]
      | some pr =>
        obtain ⟨nxt, p⟩ := pr
        simp only [hw]
        split
        · simp
        · exact ih (by have := hn pos nxt p hw; omega)

theorem fillTopAgainW_ne_none {π : Type} (w : Walker π) (μ : π → Nat)
    (hp : ∀ p i q, w.prev p = some (i, q) → μ q < μ p) :
    ∀ {fuel : Nat} {pos : π}, μ pos < fuel →
    ∀ {fl offsetRows trimTop : Nat} {fa : List (FillItemW π)},
      fillTopAgainW w fuel pos fl offsetRows trimTop fa ≠ none := by
  intro fuel
  induction fuel with
  | zero =>
    intro pos h
    omega
  | succ n ih =>
    intro pos h fl o t fa
    rw [fillTopAgainW]
    split
    · simp
    · cases hw : w.prev pos with
      | none => simp [hw]
      | some pr =>
        obtain ⟨prev, p⟩ := pr
        simp only [hw]
        split
        · simp
        · exact ih (by have := hp pos prev p hw; omega)

theorem collectAboveW_topPos_le {π : Type} (w : Walker π) (μ : π → Nat)
    (hp : ∀ p i q, w.prev p = some (i, q) → μ q < μ p) :
    ∀ {fuel : Nat} {pos : π} {fl offsetRows trimTop : Nat}
      {fa : List (FillItemW π)} {tp : π} {a : AboveOutW π},
      collectAboveW w fuel pos fl offsetRows trimTop fa tp = some a →
      μ a.topPos ≤ max (μ tp) (μ pos) := by
  intro fuel
  induction fuel with
  | zero =>
    intro pos fl o t fa tp a h
    simp [collectAboveW] at h
  | succ n ih =>
    intro pos fl o t fa tp a h
    rw [collectAboveW] at h
    split at h
    · simp only [Option.some.injEq] at h
      subst h
      exact le_max_left _ _
    · split at h
      · simp only [Option.some.injEq] at h
        subst h
        exact le_max_left _ _
      · rename_i prev p heq
        dsimp only at h
        split at h
        · simp only [Option.some.injEq] at h
          subst h
          have := hp pos prev p heq
          simp only
          omega
        · have := ih h
          have := hp pos prev p heq
          omega

/-! ### Claim C6: termination of `calculate_visible` on finite sequences -/

theorem calcVisibleW_tail_isSome {π : Type} (w : Walker π) (μn μp : π → Nat)
    (hn : ∀ p i q, w.next p = some (i, q) → μn q < μn p)
    (hp : ∀ p i q, w.prev p = some (i, q) → μp q < μp p)
    {fuel : Nat} {focusPos : π} (h1 : μp focusPos < fuel) (h2 : μn focusPos < fuel)
    (u v s : Nat) (fl0 : AboveOutW π → Int) (tb0 : AboveOutW π → Nat)
    (adj : AboveOutW π → BelowOutW π → Nat × Nat × Nat)
    (mk : AboveOutW π → BelowOutW π → TopAgainOutW π → VisibleInfoW π) :
    ((match collectAboveW w fuel focusPos u v s [] focusPos with
     | none => none
     | some a =>
       match collectBelowW w fuel focusPos (fl0 a) (tb0 a) [] with
       | none => none
       | some b =>
         match fillTopAgainW w fuel a.topPos (adj a b).1 (adj a b).2.2 (adj a b).2.1
             a.fillAbove with
         | none => none
         | some t => some (Except.ok (mk a b t))) :
       Option (Except LBErr (VisibleInfoW π))).isSome := by
  split
  · rename_i heq
    exact absurd heq (collectAboveW_ne_none w μp hp h1)
  · rename_i a heq
    split
    · rename_i heqb
      exact absurd heqb (collectBelowW_ne_none w μn hn h2)
    · rename_i b heqb
      split
      · rename_i heqt
        have htp : μp a.topPos < fuel := by
          have := collectAboveW_topPos_le w μp hp heq
          omega
        exact absurd heqt (fillTopAgainW_ne_none w μp hp htp)
      · simp

/-- C6: for every finite item sequence — one whose `next` and `prev` chains
admit strictly decreasing measures, i.e. they eventually return the end
marker and never revisit a position — and every viewport size,
`calculate_visible` terminates: with fuel exceeding the measures of the
focus position, none of its three traversal loops runs out of fuel. -/
theorem claim6_calculate_visible_terminates {π : Type} (w : Walker π)
    (μn μp : π → Nat)
    (hn : ∀ p i q, w.next p = some (i, q) → μn q < μn p)
    (hp : ∀ p i q, w.prev p = some (i, q) → μp q < μp p)
    (focusWidget : Item) (focusPos : π)
    (offsetRows0 insetNum insetDen maxcol maxrow : Nat) (focusFlag : Bool)
    (fuel : Nat) (h1 : μp focusPos < fuel) (h2 : μn focusPos < fuel) :
    (calcVisibleW w focusWidget focusPos offsetRows0 insetNum insetDen
      maxcol maxrow focusFlag fuel).isSome := by
  unfold calcVisibleW
  cases ho : getFocusOffsetInset focusWidget offsetRows0 insetNum insetDen with
  | error e => simp
  | ok oi =>
    dsimp only
    exact calcVisibleW_tail_isSome w μn μp hn hp h1 h2 _ _ _ _ _ _ _

/-- Witness for C6: the walker of a concrete three-element
`SimpleListWalker` body with the canonical measures terminates with fuel 4
from focus position 1. -/
theorem claim6_witness :
    (calcVisibleW (listWalker [⟨1, true, none⟩, ⟨2, true, none⟩, ⟨1, true, none⟩])
      ⟨2, true, none⟩ 1 0 0 1 10 3 false 4).isSome :=
  claim6_calculate_visible_terminates
    (listWalker [⟨1, true, none⟩, ⟨2, true, none⟩, ⟨1, true, none⟩])
    (fun p => 3 - p) (fun p => p)
    (fun p i q h => by have := getNext_eq h; simp at this; show 3 - q < 3 - p; omega)
    (fun p i q h => by show q < p; exact getPrev_lt h)
    ⟨2, true, none⟩ 1 0 0 1 10 3 false 4 (by decide) (by decide)

/-! ### Claim C5: self-loop detection -/

/-- A walker whose `get_next` always returns the starting position again:
the Item Sequence self-loop contract violation. -/
def selfLoopWalker : Walker Unit :=
  ⟨fun _ => some (⟨1, true, none⟩, ()), fun _ => none⟩

/-- Counterexample to C5, as stated: on a walker whose every `next` step is
a self-loop, `calculate_visible`'s forward traversal silently walks the
same position twice and returns a normal partition — no error is reported,
so the claimed detection does not apply to the traversals of
`calculate_visible`. -/
theorem claim5_self_loop_counterexample :
    calcVisibleW selfLoopWalker ⟨1, true, none⟩ () 0 0 1 5 3 true 10 =
      some (.ok ⟨0, ⟨1, true, none⟩, (), 1, none, (0, []),
        (0, [⟨⟨1, true, none⟩, (), 1⟩, ⟨⟨1, true, none⟩, (), 1⟩])⟩) := rfl

/-- C5 amended: only `render`'s completeness probe detects a `next`
self-loop and fails with an error naming the offending position (and only
when the repeated position is unrendered and 0-height, so the probe reaches
the check); `calculate_visible`'s traversal loops perform no such check and
return normally whenever the looping widget has nonzero height. -/
theorem claim5_self_loop_amended {π : Type} [DecidableEq π] (w : Walker π)
    (maxcol : Nat) (rendered : List π) (fuel : Nat) (z w2 : Item) (p : π)
    (hz : z.height = 0) (hmem : p ∉ rendered) (hloop : w.next p = some (w2, p)) :
    renderProbeGoW w maxcol rendered (fuel + 1) z p =
      some (.error (.selfLoopPosition p)) := by
  rw [renderProbeGoW]
  rw [if_neg hmem]
  simp [hz, hloop]

/-- A self-looping walker over 0-height widgets, for the C5 witness. -/
def selfLoopZeroWalker : Walker Unit :=
  ⟨fun _ => some (⟨0, false, none⟩, ()), fun _ => none⟩

/-- Witness for the amended C5: the probe reports the self-loop at the
concrete walker above. -/
theorem claim5_self_loop_amended_witness :
    (⟨0, false, none⟩ : Item).height = 0 ∧
    selfLoopZeroWalker.next () = some (⟨0, false, none⟩, ()) ∧
    renderProbeGoW selfLoopZeroWalker 5 [] 1 ⟨0, false, none⟩ () =
      some (.error (.selfLoopPosition ())) :=
  ⟨rfl, rfl,
    claim5_self_loop_amended selfLoopZeroWalker 5 [] 0 ⟨0, false, none⟩
      ⟨0, false, none⟩ () rfl (by simp) rfl⟩

/-! ### Claim C4: zero-height items -/

/-- Counterexample to C4, as stated: (a) with a 0-height widget at position
0 below-filled viewport of height 2 and the height-1 focus at position 1,
the step-4 refill pass puts the 0-height widget (rows = 0) into the top
fill list of the returned Partition; (b) with a tall cursor-bearing focus
widget followed by a 0-height widget, a single down keypress focuses the
0-height widget (the final state's focus position 1 holds the 0-height
item). -/
theorem claim4_zero_height_counterexample :
    (calcVisiblePure [⟨0, false, none⟩, ⟨1, true, none⟩] 1 0 0 1 10 2 false =
      .ok (some ⟨⟨0, ⟨1, true, none⟩, 1, 1, none⟩,
                 ⟨0, [⟨⟨0, false, none⟩, 0, 0⟩]⟩, ⟨0, []⟩⟩)) ∧
    ((⟨⟨0, false, none⟩, 0, 0⟩ : VisibleInfoFillItem).rows = 0) ∧
    (ListBox.keypressDown ⟨[⟨6, true, some (0, 2)⟩, ⟨0, false, none⟩], 0, 0, 2, 6,
        none, Pending.none, none⟩ 10 3 =
      .ok (.handled, ⟨[⟨6, true, some (0, 2)⟩, ⟨0, false, none⟩], 1, 2, 0, 1,
        some 0, Pending.none, none⟩)) ∧
    (([⟨6, true, some (0, 2)⟩, ⟨0, false, none⟩] : List Item)[1]? =
      some ⟨0, false, none⟩) ∧
    ((⟨0, false, none⟩ : Item).height = 0) :=
  ⟨rfl, rfl, rfl, rfl, rfl⟩

/-- C4 amended: an item of measured height 0 never appears in the *bottom*
fill list of the Partition returned by `calculate_visible` (the traversal
walks over it but excludes it); in the top fill list it is excluded only by
the primary backward walk — the final fill-from-top-again pass can include
it — and the cursor branch of down-navigation can make it the focus. -/
theorem claim4_zero_height_amended (items : List Item)
    (focus offsetRows0 insetNum insetDen maxcol maxrow : Nat) (focusFlag : Bool)
    (vi : VisibleInfo)
    (h : calcVisiblePure items focus offsetRows0 insetNum insetDen maxcol maxrow focusFlag =
      .ok (some vi)) :
    ∀ f ∈ vi.bottom.fill, f.rows ≠ 0 := by
  unfold calcVisiblePure at h
  cases hg : items[focus]? with
  | none =>
    rw [hg] at h
    simp at h
  | some fw =>
    rw [hg] at h
    dsimp only at h
    cases ho : getFocusOffsetInset fw offsetRows0 insetNum insetDen with
    | error e =>
      rw [ho, except_bind_error] at h
      exact Except.noConfusion h
    | ok oi =>
      rw [ho, except_bind_ok] at h
      simp only [Except.ok.injEq, Option.some.injEq] at h
      subst h
      exact collectBelow_fill_ne_zero items focus _ _ [] (by simp)

/-- Witness for the amended C4: the single bottom fill entry of a concrete
partition has nonzero rows. -/
theorem claim4_zero_height_amended_witness :
    (calcVisiblePure [⟨1, true, none⟩, ⟨1, true, none⟩] 0 0 0 1 5 2 false =
      .ok (some ⟨⟨0, ⟨1, true, none⟩, 0, 1, none⟩, ⟨0, []⟩,
                 ⟨0, [⟨⟨1, true, none⟩, 1, 1⟩]⟩⟩)) ∧
    (⟨⟨1, true, none⟩, 1, 1⟩ : VisibleInfoFillItem).rows ≠ 0 :=
  ⟨rfl,
    claim4_zero_height_amended [⟨1, true, none⟩, ⟨1, true, none⟩] 0 0 0 1 5 2 false
      ⟨⟨0, ⟨1, true, none⟩, 0, 1, none⟩, ⟨0, []⟩, ⟨0, [⟨⟨1, true, none⟩, 1, 1⟩]⟩⟩ rfl
      ⟨⟨1, true, none⟩, 1, 1⟩ (by simp)⟩

/-! ### Claim C8: `shift_focus` -/

/-- C8: `shift_focus(size, offset_inset)` raises the invalid-offset error
exactly when a non-negative `offset_inset` is at least the viewport height
or a negative one satisfies `offset_inset + target_rows <= 0`; on success
it changes only `offset_rows`/`inset_fraction`, never which item the
sequence has in focus. -/
theorem claim8_shift_focus (lb : ListBox) (maxcol maxrow : Nat) (offsetInset : Int)
    (target : Item) (hget : lb.items[lb.focus]? = some target) :
    ((lb.shiftFocus maxcol maxrow offsetInset = .error (.invalidOffset offsetInset)) ↔
      ((0 ≤ offsetInset ∧ (maxrow : Int) ≤ offsetInset) ∨
       (offsetInset < 0 ∧ offsetInset + target.height ≤ 0))) ∧
    (∀ lb', lb.shiftFocus maxcol maxrow offsetInset = .ok lb' →
      lb'.items = lb.items ∧ lb'.focus = lb.focus ∧ lb'.prefCol = lb.prefCol ∧
      lb'.pending = lb.pending ∧ lb'.valignPending = lb.valignPending) := by
  unfold ListBox.shiftFocus
  rw [hget]
  dsimp only
  constructor
  · split_ifs with h0 h1 h2
    · exact iff_of_true rfl (Or.inl ⟨h0, h1⟩)
    · refine iff_of_false (by simp) ?_
      rintro (⟨_, hc⟩ | ⟨hc, _⟩) <;> omega
    · exact iff_of_true rfl (Or.inr ⟨by omega, h2⟩)
    · refine iff_of_false (by simp) ?_
      rintro (⟨hc, _⟩ | ⟨_, hc⟩) <;> omega
  · intro lb' h
    split_ifs at h with h0 h1 h2 <;>
      first
        | exact Except.noConfusion h
        | (simp only [Except.ok.injEq] at h
           subst h
           exact ⟨rfl, rfl, rfl, rfl, rfl⟩)

/-- Witness for C8 at a concrete state: a viewport-sized offset is rejected
and a legal offset succeeds without moving the focus. -/
theorem claim8_witness :
    (ListBox.shiftFocus ⟨[⟨2, true, none⟩], 0, 0, 0, 1, none, Pending.none, none⟩ 10 3 3 =
      .error (.invalidOffset 3)) ∧
    (∀ lb', ListBox.shiftFocus ⟨[⟨2, true, none⟩], 0, 0, 0, 1, none, Pending.none, none⟩
        10 3 1 = .ok lb' → lb'.focus = 0) := by
  have h3 := claim8_shift_focus ⟨[⟨2, true, none⟩], 0, 0, 0, 1, none, Pending.none, none⟩
    10 3 3 ⟨2, true, none⟩ rfl
  have h1 := claim8_shift_focus ⟨[⟨2, true, none⟩], 0, 0, 0, 1, none, Pending.none, none⟩
    10 3 1 ⟨2, true, none⟩ rfl
  exact ⟨h3.1.mpr (Or.inl (by decide)), fun lb' h => ((h1.2 lb' h).2.1)⟩

/-! ### Claim C10: `ends_visible` on an empty sequence -/

theorem ListBox_calcVisible_nil (lb : ListBox) (maxcol maxrow : Nat) (focusFlag : Bool)
    (hempty : lb.items = []) :
    lb.calcVisible maxcol maxrow focusFlag = .ok none := by
  unfold ListBox.calcVisible
  rw [hempty]
  exact calcVisiblePure_nil _ _ _ _ _ _ _

theorem setFocusComplete_empty (lb : ListBox) (maxcol maxrow : Nat) (focusFlag : Bool)
    (hempty : lb.items = [])
    (hcase : lb.pending = Pending.firstSelectable ∨ lb.valignPending ≠ none) :
    lb.setFocusComplete maxcol maxrow focusFlag =
      .ok { lb with valignPending := none, pending := Pending.none } := by
  unfold ListBox.setFocusComplete
  by_cases hfs : lb.pending = Pending.firstSelectable
  · rw [if_pos hfs]
    simp only [ListBox.setFocusFirstSelectable]
    have hcv : ({ lb with valignPending := none, pending := Pending.none } :
        ListBox).calcVisible maxcol maxrow focusFlag = .ok none :=
      ListBox_calcVisible_nil _ _ _ _ (by simp [hempty])
    rw [hcv, except_bind_ok]
  · rw [if_neg hfs]
    have hv : lb.valignPending ≠ none := hcase.resolve_left hfs
    rw [if_pos hv]
    unfold ListBox.setFocusValignComplete
    cases hvp : lb.valignPending with
    | none => exact absurd hvp hv
    | some v =>
      obtain ⟨vt, va⟩ := v
      simp [hempty]

theorem calculateVisible_empty (lb : ListBox) (maxcol maxrow : Nat) (focusFlag : Bool)
    (hempty : lb.items = [])
    (hpend : ∀ cf pp, lb.pending ≠ Pending.restore cf pp) :
    ∃ lb', lb.calculateVisible maxcol maxrow focusFlag = .ok (none, lb') ∧
      lb'.items = [] := by
  unfold ListBox.calculateVisible
  by_cases hguard : lb.pending ≠ Pending.none ∨ lb.valignPending ≠ none
  · rw [if_pos hguard]
    have hcase : lb.pending = Pending.firstSelectable ∨ lb.valignPending ≠ none := by
      cases hp : lb.pending with
      | none =>
        rcases hguard with hg | hg
        · exact absurd hp hg
        · exact Or.inr hg
      | firstSelectable => exact Or.inl rfl
      | restore cf pp => exact absurd hp (hpend cf pp)
    rw [setFocusComplete_empty lb maxcol maxrow focusFlag hempty hcase, except_bind_ok]
    dsimp only
    have hcv : ({ lb with valignPending := none, pending := Pending.none } :
        ListBox).calcVisible maxcol maxrow focusFlag = .ok none :=
      ListBox_calcVisible_nil _ _ _ _ (by simp [hempty])
    rw [hcv, except_bind_ok]
    exact ⟨_, rfl, by simp [hempty]⟩
  · rw [if_neg hguard]
    have hcv : lb.calcVisible maxcol maxrow focusFlag = .ok none :=
      ListBox_calcVisible_nil _ _ _ _ hempty
    rw [except_pure_bind]
    dsimp only
    rw [hcv, except_bind_ok]
    exact ⟨lb, rfl, hempty⟩

/-- C10: on an empty item sequence (and no stale restore-focus request),
`ends_visible` reports both ends visible — the two-element list
`["top", "bottom"]` — for every viewport size, not the empty list. -/
theorem claim10_ends_visible_empty (lb : ListBox) (maxcol maxrow : Nat) (focusFlag : Bool)
    (hempty : lb.items = [])
    (hpend : ∀ cf pp, lb.pending ≠ Pending.restore cf pp) :
    ∃ lb', lb.endsVisible maxcol maxrow focusFlag =
      .ok ([EndMark.top, EndMark.bottom], lb') := by
  obtain ⟨lb1, hcv, hnil⟩ := calculateVisible_empty lb maxcol maxrow focusFlag hempty hpend
  refine ⟨lb1, ?_⟩
  unfold ListBox.endsVisible
  rw [hcv, except_bind_ok]
  rfl

/-- Witness for C10 at a concrete empty ListBox. -/
theorem claim10_witness :
    ∃ lb', ListBox.endsVisible ⟨[], 0, 0, 0, 1, none, Pending.none, none⟩ 10 3 false =
      .ok ([EndMark.top, EndMark.bottom], lb') :=
  claim10_ends_visible_empty ⟨[], 0, 0, 0, 1, none, Pending.none, none⟩ 10 3 false rfl
    (fun cf pp h => Pending.noConfusion h)

/-! ### Claim C2: the empty-sequence contract -/

theorem getFocusOffsetInset_ok (fw : Item) (offsetRows0 insetNum insetDen : Nat)
    (hinset : insetNum < insetDen) :
    ∃ oi, getFocusOffsetInset fw offsetRows0 insetNum insetDen = .ok oi := by
  unfold getFocusOffsetInset
  split
  · exact ⟨_, rfl⟩
  · rw [if_neg (by omega : ¬ insetDen ≤ insetNum)]
    dsimp only
    split
    · rename_i hbad
      exfalso
      have hir : fw.height * insetNum / insetDen < fw.height ∨
          fw.height * insetNum / insetDen = 0 := by
        cases Nat.eq_zero_or_pos fw.height with
        | inl h0 => exact Or.inr (by simp [h0])
        | inr hpos =>
          refine Or.inl ((Nat.div_lt_iff_lt_mul (by omega)).mpr ?_)
          calc fw.height * insetNum < fw.height * insetDen :=
                mul_lt_mul_of_pos_left hinset hpos
            _ = fw.height * insetDen := rfl
      rcases hir with hlt | h0
      · omega
      · omega
    · exact ⟨_, rfl⟩

theorem calcVisiblePure_ok_of_valid (items : List Item)
    (focus offsetRows0 insetNum insetDen maxcol maxrow : Nat) (focusFlag : Bool)
    (hfoc : focus < items.length) (hinset : insetNum < insetDen) :
    ∃ vi, calcVisiblePure items focus offsetRows0 insetNum insetDen maxcol maxrow focusFlag =
      .ok (some vi) := by
  have hfw : items[focus]? = some items[focus] := List.getElem?_eq_getElem hfoc
  obtain ⟨oi, hoi⟩ := getFocusOffsetInset_ok items[focus] offsetRows0 insetNum insetDen hinset
  cases hres : calcVisiblePure items focus offsetRows0 insetNum insetDen maxcol maxrow focusFlag with
  | error e =>
    exfalso
    unfold calcVisiblePure at hres
    rw [hfw] at hres
    dsimp only at hres
    rw [hoi, except_bind_ok] at hres
    exact Except.noConfusion hres
  | ok vi? =>
    cases vi? with
    | none =>
      exfalso
      unfold calcVisiblePure at hres
      rw [hfw] at hres
      dsimp only at hres
      rw [hoi, except_bind_ok] at hres
      simp at hres
    | some vi => exact ⟨vi, rfl⟩

/-- C2: with no pending request and a valid state, `calculate_visible`
returns `(None, None, None)` exactly when the item sequence is empty (its
`get_focus` yields no widget); and on an empty sequence `render` returns the
blank `SolidCanvas` of exactly `maxrow` rows and `maxcol` columns. -/
theorem claim2_empty_contract (lb : ListBox) (maxcol maxrow : Nat) (focusFlag : Bool)
    (hpend : lb.pending = Pending.none) (hv : lb.valignPending = none)
    (hinset : lb.insetNum < lb.insetDen)
    (hfoc : lb.focus < lb.items.length ∨ lb.items = []) :
    ((∃ lb', lb.calculateVisible maxcol maxrow focusFlag = .ok (none, lb')) ↔
      lb.items = []) ∧
    (lb.items = [] → lb.render maxcol maxrow focusFlag =
      .ok (solidCanvas maxcol maxrow, lb)) := by
  have hguard : ¬ (lb.pending ≠ Pending.none ∨ lb.valignPending ≠ none) := by
    simp [hpend, hv]
  have hpure : ∀ r, lb.calcVisible maxcol maxrow focusFlag = .ok r →
      lb.calculateVisible maxcol maxrow focusFlag = .ok (r, lb) := by
    intro r hr
    unfold ListBox.calculateVisible
    rw [if_neg hguard, except_pure_bind]
    dsimp only
    rw [hr, except_bind_ok]
    rfl
  constructor
  · constructor
    · rintro ⟨lb', h⟩
      by_contra hne
      have hlt : lb.focus < lb.items.length := hfoc.resolve_right hne
      obtain ⟨vi, hvi⟩ := calcVisiblePure_ok_of_valid lb.items lb.focus lb.offsetRows
        lb.insetNum lb.insetDen maxcol maxrow focusFlag hlt hinset
      have h2 := hpure (some vi) hvi
      rw [h2] at h
      simp at h
    · intro he
      exact ⟨lb, hpure none (ListBox_calcVisible_nil lb maxcol maxrow focusFlag he)⟩
  · intro he
    have h2 := hpure none (ListBox_calcVisible_nil lb maxcol maxrow focusFlag he)
    unfold ListBox.render
    rw [h2, except_bind_ok]
    rfl

/-- Witness for C2 at the concrete empty ListBox. -/
theorem claim2_witness :
    (ListBox.render ⟨[], 0, 0, 0, 1, none, Pending.none, none⟩ 7 4 false =
      .ok (solidCanvas 7 4, ⟨[], 0, 0, 0, 1, none, Pending.none, none⟩)) ∧
    (∃ lb', ListBox.calculateVisible ⟨[], 0, 0, 0, 1, none, Pending.none, none⟩ 7 4 false =
      .ok (none, lb')) := by
  have h := claim2_empty_contract ⟨[], 0, 0, 0, 1, none, Pending.none, none⟩ 7 4 false
    rfl rfl (by decide) (Or.inr rfl)
  exact ⟨h.2 rfl, h.1.mpr rfl⟩

/-! ### Claim C9: idempotence of `calculate_visible` -/

theorem setFocusBody_pending {lb lb' : ListBox} {pos : Nat}
    (h : lb.setFocusBody pos = .ok lb') :
    lb'.pending = lb.pending ∧ lb'.valignPending = lb.valignPending := by
  unfold ListBox.setFocusBody at h
  split at h
  · simp only [Except.ok.injEq] at h
    subst h
    exact ⟨rfl, rfl⟩
  · exact Except.noConfusion h

theorem shiftFocus_pending {lb lb' : ListBox} {mc mr : Nat} {oi : Int}
    (h : lb.shiftFocus mc mr oi = .ok lb') :
    lb'.pending = lb.pending ∧ lb'.valignPending = lb.valignPending := by
  unfold ListBox.shiftFocus at h
  split at h
  · split at h
    · exact Except.noConfusion h
    · simp only [Except.ok.injEq] at h
      subst h
      exact ⟨rfl, rfl⟩
  · split at h
    · exact Except.noConfusion h
    · split at h
      · exact Except.noConfusion h
      · simp only [Except.ok.injEq] at h
        subst h
        exact ⟨rfl, rfl⟩

theorem updatePrefColFromFocus_fields (lb : ListBox) (mc : Nat) :
    (lb.updatePrefColFromFocus mc).pending = lb.pending ∧
    (lb.updatePrefColFromFocus mc).valignPending = lb.valignPending ∧
    (lb.updatePrefColFromFocus mc).items = lb.items ∧
    (lb.updatePrefColFromFocus mc).focus = lb.focus := by
  unfold ListBox.updatePrefColFromFocus
  split
  · exact ⟨rfl, rfl, rfl, rfl⟩
  · split
    · exact ⟨rfl, rfl, rfl, rfl⟩
    · exact ⟨rfl, rfl, rfl, rfl⟩

theorem changeFocus_pending {lb lb' : ListBox} {mc mr pos : Nat} {oi : Int}
    {cf : Option Direction} {cc : Option (Nat × Option Nat)} {sr : Option Int}
    (h : lb.changeFocus mc mr pos oi cf cc sr = .ok lb') :
    lb'.pending = lb.pending ∧ lb'.valignPending = lb.valignPending := by
  unfold ListBox.changeFocus at h
  obtain ⟨lb2, hsb, h⟩ := except_bind_eq_ok h
  have hp1 : lb2.pending = lb.pending ∧ lb2.valignPending = lb.valignPending := by
    have h2 := setFocusBody_pending hsb
    cases cc with
    | some c => exact h2
    | none =>
      exact ⟨h2.1.trans (updatePrefColFromFocus_fields lb mc).1,
             h2.2.trans (updatePrefColFromFocus_fields lb mc).2.1⟩
  try dsimp only at h
  split at h
  · rw [except_bind_error] at h
    exact Except.noConfusion h
  · rename_i t
    rw [except_pure_bind] at h
    try dsimp only at h
    repeat' split at h
    all_goals first
      | exact Except.noConfusion h
      | (simp only [Except.ok.injEq] at h; subst h; exact hp1)

theorem firstSelectableScan_pending (mc mr : Nat) :
    ∀ (l : List VisibleInfoFillItem) (off : Int) (lb lb' : ListBox),
      firstSelectableScan lb mc mr l off = .ok lb' →
      lb'.pending = lb.pending ∧ lb'.valignPending = lb.valignPending := by
  intro l
  induction l with
  | nil =>
    intro off lb lb' h
    unfold firstSelectableScan at h
    simp only [Except.ok.injEq] at h
    subst h
    exact ⟨rfl, rfl⟩
  | cons f rest ih =>
    intro off lb lb' h
    unfold firstSelectableScan at h
    split at h
    · obtain ⟨lbm, hsb, h⟩ := except_bind_eq_ok h
      have h1 := setFocusBody_pending hsb
      have h2 := shiftFocus_pending h
      exact ⟨h2.1.trans h1.1, h2.2.trans h1.2⟩
    · exact ih _ lb lb' h

theorem setFocusComplete_clears {lb lb' : ListBox} {mc mr : Nat} {ff : Bool}
    (h : lb.setFocusComplete mc mr ff = .ok lb') :
    lb'.pending = Pending.none ∧ lb'.valignPending = none := by
  unfold ListBox.setFocusComplete at h
  by_cases hfs : lb.pending = Pending.firstSelectable
  · rw [if_pos hfs] at h
    unfold ListBox.setFocusFirstSelectable at h
    obtain ⟨vi?, hcv, h⟩ := except_bind_eq_ok h
    cases vi? with
    | none =>
      dsimp only at h
      simp only [Except.ok.injEq] at h
      subst h
      exact ⟨rfl, rfl⟩
    | some vi =>
      dsimp only at h
      split at h
      · simp only [Except.ok.injEq] at h
        subst h
        exact ⟨rfl, rfl⟩
      · have hs := firstSelectableScan_pending mc mr _ _ _ _ h
        exact ⟨hs.1, hs.2⟩
  · rw [if_neg hfs] at h
    by_cases hv : lb.valignPending ≠ none
    · rw [if_pos hv] at h
      unfold ListBox.setFocusValignComplete at h
      cases hvp : lb.valignPending with
      | none => exact absurd hvp hv
      | some v =>
        obtain ⟨vt, va⟩ := v
        rw [hvp] at h
        dsimp only at h
        split at h
        · simp only [Except.ok.injEq] at h
          subst h
          exact ⟨rfl, rfl⟩
        · have hs := shiftFocus_pending h
          exact ⟨hs.1, hs.2⟩
    · rw [if_neg hv] at h
      have hveq : lb.valignPending = none := not_ne_iff.mp hv
      cases hp : lb.pending with
      | none =>
        rw [hp] at h
        exact Except.noConfusion h
      | firstSelectable => exact absurd hp hfs
      | restore cf pp =>
        rw [hp] at h
        dsimp only at h
        split at h
        · simp only [Except.ok.injEq] at h
          subst h
          exact ⟨rfl, hveq⟩
        · obtain ⟨lb2, hsb, h⟩ := except_bind_eq_ok h
          obtain ⟨vi?, hcv, h⟩ := except_bind_eq_ok h
          have hp2 := setFocusBody_pending hsb
          have hp2' : lb2.pending = Pending.none ∧ lb2.valignPending = none :=
            ⟨hp2.1, hp2.2.trans hveq⟩
          split at h
          · rename_i vi position
            split at h
            · have hcf := changeFocus_pending h
              exact ⟨hcf.1.trans hp2'.1, hcf.2.trans hp2'.2⟩
            · split at h
              · have hcf := changeFocus_pending h
                exact ⟨hcf.1.trans hp2'.1, hcf.2.trans hp2'.2⟩
              · obtain ⟨lb3, hsb3, h⟩ := except_bind_eq_ok h
                have hp3 := setFocusBody_pending hsb3
                split at h
                · exact Except.noConfusion h
                · have hs := shiftFocus_pending h
                  exact ⟨hs.1.trans (hp3.1.trans hp2'.1), hs.2.trans (hp3.2.trans hp2'.2)⟩
          · exact Except.noConfusion h

/-- C9: idempotence — if `calculate_visible` returns a partition together
with the (possibly pending-resolved) state, calling it again on that state
with the same size and focus flag returns the identical partition and
leaves the state unchanged. -/
theorem claim9_idempotent (lb : ListBox) (maxcol maxrow : Nat) (focusFlag : Bool)
    (vi? : Option VisibleInfo) (lb1 : ListBox)
    (h : lb.calculateVisible maxcol maxrow focusFlag = .ok (vi?, lb1)) :
    lb1.calculateVisible maxcol maxrow focusFlag = .ok (vi?, lb1) := by
  unfold ListBox.calculateVisible at h ⊢
  by_cases hguard : lb.pending ≠ Pending.none ∨ lb.valignPending ≠ none
  · rw [if_pos hguard] at h
    obtain ⟨lbr, hsc, h⟩ := except_bind_eq_ok h
    dsimp only at h
    obtain ⟨v, hcv, h⟩ := except_bind_eq_ok h
    rw [except_pure_eq] at h
    simp only [Except.ok.injEq, Prod.mk.injEq] at h
    obtain ⟨rfl, rfl⟩ := h
    have hclear := setFocusComplete_clears hsc
    rw [if_neg (by simp [hclear.1, hclear.2]), except_pure_bind]
    dsimp only
    rw [hcv, except_bind_ok]
    rfl
  · rw [if_neg hguard, except_pure_bind] at h
    dsimp only at h
    obtain ⟨v, hcv, h⟩ := except_bind_eq_ok h
    rw [except_pure_eq] at h
    simp only [Except.ok.injEq, Prod.mk.injEq] at h
    obtain ⟨rfl, rfl⟩ := h
    rw [if_neg hguard, except_pure_bind]
    dsimp only
    rw [hcv, except_bind_ok]
    rfl

theorem claim9_witness :
    ListBox.calculateVisible
        ⟨[⟨1, false, none⟩, ⟨1, true, none⟩], 1, 1, 0, 1, none,
          Pending.none, none⟩ 10 2 true =
      .ok (some ⟨⟨1, ⟨1, true, none⟩, 1, 1, none⟩,
                 ⟨0, [⟨⟨1, false, none⟩, 0, 1⟩]⟩, ⟨0, []⟩⟩,
           ⟨[⟨1, false, none⟩, ⟨1, true, none⟩], 1, 1, 0, 1, none,
             Pending.none, none⟩) :=
  claim9_idempotent
    ⟨[⟨1, false, none⟩, ⟨1, true, none⟩], 0, 0, 0, 1, none,
      Pending.firstSelectable, none⟩ 10 2 true
    (some ⟨⟨1, ⟨1, true, none⟩, 1, 1, none⟩,
           ⟨0, [⟨⟨1, false, none⟩, 0, 1⟩]⟩, ⟨0, []⟩⟩)
    ⟨[⟨1, false, none⟩, ⟨1, true, none⟩], 1, 1, 0, 1, none,
      Pending.none, none⟩ (by rfl)

theorem clampOffset_lt (maxrow offsetRows : Nat) (hmr : maxrow ≠ 0) :
    clampOffset maxrow offsetRows < maxrow := by
  unfold clampOffset
  split
  · omega
  · rename_i hc
    omega

theorem getFocusOffsetInset_inset_lt {fw : Item} {offsetRows insetNum insetDen : Nat}
    {oi : Nat × Nat} (h : getFocusOffsetInset fw offsetRows insetNum insetDen = .ok oi)
    (hfh : 0 < fw.height) : oi.2 < fw.height := by
  unfold getFocusOffsetInset at h
  split at h
  · simp only [Except.ok.injEq] at h
    subst h
    exact hfh
  · split at h
    · exact Except.noConfusion h
    · dsimp only at h
      split at h
      · exact Except.noConfusion h
      · rename_i hg
        simp only [Except.ok.injEq] at h
        subst h
        dsimp only
        omega

theorem adjustForCursor_offset_lt {maxrow offsetRows insetRows : Nat}
    {cursor : Option (Nat × Nat)} (hor : offsetRows < maxrow) (hmr : maxrow ≠ 0) :
    (adjustForCursor maxrow offsetRows insetRows cursor).1 < maxrow := by
  unfold adjustForCursor
  cases cursor with
  | none => exact hor
  | some c =>
    obtain ⟨cx, cy⟩ := c
    dsimp only
    split
    · exact hor
    · split
      · try dsimp only
        split
        · omega
        · rename_i hnn
          dsimp only
          omega
      · exact hor

theorem adjustForCursor_inset_lt {maxrow offsetRows insetRows : Nat}
    {cursor : Option (Nat × Nat)} {fh : Nat} (hir : insetRows < fh)
    (hcur : ∀ cx cy, cursor = some (cx, cy) → cy < fh) (hmr : maxrow ≠ 0) :
    (adjustForCursor maxrow offsetRows insetRows cursor).2 < fh := by
  unfold adjustForCursor
  cases cursor with
  | none => exact hir
  | some c =>
    obtain ⟨cx, cy⟩ := c
    have hcy : cy < fh := hcur cx cy rfl
    dsimp only
    split
    · exact hcy
    · split
      · try dsimp only
        split
        · rename_i hneg
          dsimp only
          omega
        · exact hir
      · exact hir

theorem collectAbove_offset_le (items : List Item) :
    ∀ (pos fillLines offsetRows trimTop : Nat) (fillAbove : List VisibleInfoFillItem)
      (topPos : Nat),
      (collectAbove items pos fillLines offsetRows trimTop fillAbove topPos).offsetRows ≤
        offsetRows := by
  intro pos
  induction pos with
  | zero =>
    intro fillLines offsetRows trimTop fillAbove topPos
    simp only [collectAbove]
    split
    · exact Nat.le_refl _
    · exact Nat.sub_le _ _
  | succ p ih =>
    intro fillLines offsetRows trimTop fillAbove topPos
    simp only [collectAbove]
    split
    · exact Nat.le_refl _
    · split
      · exact Nat.sub_le _ _
      · try dsimp only
        split
        · exact Nat.le_refl _
        · exact ih _ _ _ _ _

theorem collectBelowGo_fillLines_le (items : List Item) :
    ∀ (gas pos : Nat) (fillLines : Int) (trimBottom : Nat)
      (fillBelow : List VisibleInfoFillItem),
      (collectBelowGo items gas pos fillLines trimBottom fillBelow).fillLines ≤ fillLines := by
  intro gas
  induction gas with
  | zero =>
    intro pos fillLines trimBottom fillBelow
    exact le_refl _
  | succ g ih =>
    intro pos fillLines trimBottom fillBelow
    simp only [collectBelowGo]
    split
    · exact le_refl _
    · split
      · exact le_refl _
      · rename_i nxt p heq
        try dsimp only
        split
        · dsimp only
          omega
        · exact le_trans (ih _ _ _ _) (by omega)

theorem collectBelow_fillLines_le (items : List Item) (pos : Nat) (fillLines : Int)
    (trimBottom : Nat) (fillBelow : List VisibleInfoFillItem) :
    (collectBelow items pos fillLines trimBottom fillBelow).fillLines ≤ fillLines :=
  collectBelowGo_fillLines_le items _ pos fillLines trimBottom fillBelow

theorem adjustTrimTop_sum (fillLines trimTop offsetRows : Nat) :
    (adjustTrimTop fillLines trimTop offsetRows).1 +
      (adjustTrimTop fillLines trimTop offsetRows).2.2 ≤ fillLines + offsetRows := by
  unfold adjustTrimTop
  split
  · split
    · dsimp only
      omega
    · dsimp only
      omega
  · dsimp only
    omega

theorem fillTopAgain_offset_le (items : List Item) :
    ∀ (pos fillLines offsetRows trimTop : Nat) (fillAbove : List VisibleInfoFillItem),
      (fillTopAgain items pos fillLines offsetRows trimTop fillAbove).offsetRows ≤
        offsetRows + fillLines := by
  intro pos
  induction pos with
  | zero =>
    intro fillLines offsetRows trimTop fillAbove
    simp only [fillTopAgain]
    split
    · exact Nat.le_add_right _ _
    · exact Nat.le_add_right _ _
  | succ p ih =>
    intro fillLines offsetRows trimTop fillAbove
    simp only [fillTopAgain]
    split
    · exact Nat.le_add_right _ _
    · split
      · exact Nat.le_add_right _ _
      · rename_i prev heq
        try dsimp only
        split
        · exact Nat.le_refl _
        · rename_i hge
          exact le_trans (ih _ _ _ _) (by omega)

/-- The offset bound for the partition-building tail of `calculate_visible`:
once the cursor-adjusted `(offset_rows, inset_rows)` pair satisfies
`offset_rows < maxrow` and `inset_rows < focus height`, the final middle
offset produced by steps 2-4 lies strictly between `-focus height` and
`maxrow`. -/
theorem calcVisible_offset_bound (items : List Item) (focus : Nat) (fw : Item)
    (maxrow or3 ir3 : Nat) (hor3 : or3 < maxrow) (hir3 : ir3 < fw.height) :
    let a := collectAbove items focus or3 or3 ir3 [] focus
    let fillLines0 : Int := (maxrow : Int) - fw.height - a.offsetRows + ir3
    let b := collectBelow items focus fillLines0
      (((fw.height : Int) + a.offsetRows - ir3 - maxrow).toNat) []
    let adj := adjustTrimTop b.fillLines.toNat a.trimTop a.offsetRows
    let t := fillTopAgain items a.topPos adj.1 adj.2.2 adj.2.1 a.fillAbove;
    -(fw.height : Int) < (t.offsetRows : Int) - ir3 ∧
      (t.offsetRows : Int) - ir3 < maxrow := by
  intro a fillLines0 b adj t
  have hA : a.offsetRows ≤ or3 :=
    collectAbove_offset_le items focus or3 or3 ir3 [] focus
  have hB : b.fillLines ≤ fillLines0 :=
    collectBelow_fillLines_le items focus fillLines0
      (((fw.height : Int) + a.offsetRows - ir3 - maxrow).toNat) []
  have hAdj : adj.1 + adj.2.2 ≤ b.fillLines.toNat + a.offsetRows :=
    adjustTrimTop_sum b.fillLines.toNat a.trimTop a.offsetRows
  have hT : t.offsetRows ≤ adj.2.2 + adj.1 :=
    fillTopAgain_offset_le items a.topPos adj.1 adj.2.2 adj.2.1 a.fillAbove
  have hfl0 : fillLines0 = (maxrow : Int) - fw.height - a.offsetRows + ir3 := rfl
  constructor
  · omega
  · omega

/-- C7: for a non-empty sequence (valid focus of nonzero height, cursor
inside the widget) and nonzero viewport height, `calculate_visible` clamps
the stored `offset_rows` to `maxrow - 1` whenever it is `maxrow` or more,
and the partition's final middle offset stays strictly below `maxrow` and
strictly above `-focus_height`, so at least one focus row is visible. -/
theorem claim7_offset_clamp (items : List Item)
    (focus offsetRows0 insetNum insetDen maxcol maxrow : Nat) (focusFlag : Bool)
    (fw : Item) (vi : VisibleInfo)
    (hmr : maxrow ≠ 0)
    (hfw : items[focus]? = some fw)
    (hfh : 0 < fw.height)
    (hcur : ∀ cx cy, fw.cursor = some (cx, cy) → cy < fw.height)
    (h : calcVisiblePure items focus offsetRows0 insetNum insetDen maxcol maxrow focusFlag =
      .ok (some vi)) :
    clampOffset maxrow offsetRows0 =
      (if maxrow ≤ offsetRows0 then maxrow - 1 else offsetRows0) ∧
    clampOffset maxrow offsetRows0 < maxrow ∧
    -(fw.height : Int) < vi.middle.offset ∧ vi.middle.offset < (maxrow : Int) := by
  unfold calcVisiblePure at h
  rw [hfw] at h
  dsimp only at h
  obtain ⟨oi, hoi, h⟩ := except_bind_eq_ok h
  try dsimp only at h
  simp only [except_pure_eq, Except.ok.injEq, Option.some.injEq] at h
  subst h
  have hir2 : oi.2 < fw.height := getFocusOffsetInset_inset_lt hoi hfh
  have hor2 : clampOffset maxrow oi.1 < maxrow := clampOffset_lt maxrow oi.1 hmr
  have hcur2 : ∀ cx cy,
      (if maxrow ≠ 0 ∧ fw.selectable ∧ focusFlag then fw.cursor else none) = some (cx, cy) →
      cy < fw.height := by
    intro cx cy hc
    split at hc
    · exact hcur cx cy hc
    · exact Option.noConfusion hc
  have hor3 : (adjustForCursor maxrow (clampOffset maxrow oi.1) oi.2
      (if maxrow ≠ 0 ∧ fw.selectable ∧ focusFlag then fw.cursor else none)).1 < maxrow :=
    adjustForCursor_offset_lt hor2 hmr
  have hir3 : (adjustForCursor maxrow (clampOffset maxrow oi.1) oi.2
      (if maxrow ≠ 0 ∧ fw.selectable ∧ focusFlag then fw.cursor else none)).2 < fw.height :=
    adjustForCursor_inset_lt hir2 hcur2 hmr
  have key := calcVisible_offset_bound items focus fw maxrow
    (adjustForCursor maxrow (clampOffset maxrow oi.1) oi.2
      (if maxrow ≠ 0 ∧ fw.selectable ∧ focusFlag then fw.cursor else none)).1
    (adjustForCursor maxrow (clampOffset maxrow oi.1) oi.2
      (if maxrow ≠ 0 ∧ fw.selectable ∧ focusFlag then fw.cursor else none)).2
    hor3 hir3
  dsimp only at key
  refine ⟨?_, clampOffset_lt maxrow offsetRows0 hmr, ?_, ?_⟩
  · simp [clampOffset, hmr]
  · exact key.1
  · exact key.2

/-- Witness for C7: one height-2 item, stored offset 5 in a height-3
viewport — the clamp reduces it to 2 and the partition offset is 0. -/
theorem claim7_witness :
    (calcVisiblePure [⟨2, true, none⟩] 0 5 0 1 10 3 false =
      .ok (some ⟨⟨0, ⟨2, true, none⟩, 0, 2, none⟩, ⟨0, []⟩, ⟨0, []⟩⟩)) ∧
    (clampOffset 3 5 = (if 3 ≤ 5 then 3 - 1 else 5) ∧
     clampOffset 3 5 < 3 ∧
     -((Item.mk 2 true none).height : Int) <
       (VisibleInfo.mk ⟨0, ⟨2, true, none⟩, 0, 2, none⟩ ⟨0, []⟩ ⟨0, []⟩).middle.offset ∧
     (VisibleInfo.mk ⟨0, ⟨2, true, none⟩, 0, 2, none⟩ ⟨0, []⟩ ⟨0, []⟩).middle.offset <
       (3 : Int)) :=
  ⟨rfl, claim7_offset_clamp [⟨2, true, none⟩] 0 5 0 1 10 3 false ⟨2, true, none⟩
    ⟨⟨0, ⟨2, true, none⟩, 0, 2, none⟩, ⟨0, []⟩, ⟨0, []⟩⟩
    (by decide) rfl (by decide)
    (fun cx cy hc => Option.noConfusion hc) rfl⟩

theorem sumFill_append (l : List VisibleInfoFillItem) (f : VisibleInfoFillItem) :
    sumFill (l ++ [f]) = sumFill l + f.rows := by
  simp [sumFill]

theorem sumFill_filter_append (l : List VisibleInfoFillItem) (w : Item) (p : Nat) :
    sumFill (if w.height ≠ 0 then l ++ [⟨w, p, w.height⟩] else l) = sumFill l + w.height := by
  split
  · simp [sumFill]
  · rename_i h
    simp only [ne_eq, not_not] at h
    simp [h]

theorem totalHeight_take_succ (items : List Item) (p : Nat) (hp : p < items.length) :
    totalHeight (items.take (p + 1)) = totalHeight (items.take p) + items[p].height := by
  unfold totalHeight
  rw [List.map_take, List.map_take]
  rw [List.take_succ]
  rw [List.sum_append]
  congr 1
  simp [hp]

theorem totalHeight_drop_succ (items : List Item) (p : Nat) (hp : p < items.length) :
    totalHeight (items.drop p) = items[p].height + totalHeight (items.drop (p + 1)) := by
  unfold totalHeight
  rw [List.map_drop, List.map_drop]
  rw [List.drop_eq_getElem_cons (by simpa using hp)]
  rw [List.sum_cons]
  congr 1
  simp [hp]

theorem totalHeight_drop_nil (items : List Item) (p : Nat) (hp : items.length ≤ p) :
    totalHeight (items.drop p) = 0 := by
  rw [List.drop_eq_nil_of_le hp]
  rfl

theorem totalHeight_decomp (items : List Item) (n : Nat) (hn : n < items.length) :
    totalHeight items =
      totalHeight (items.take n) + items[n].height + totalHeight (items.drop (n + 1)) := by
  have h1 : totalHeight items = totalHeight (items.take n) + totalHeight (items.drop n) := by
    unfold totalHeight
    rw [List.map_take, List.map_drop, ← List.sum_append, List.take_append_drop]
  rw [h1, totalHeight_drop_succ items n hn]
  omega

theorem getNext_eq_none_length {items : List Item} {pos : Nat}
    (h : getNext items pos = none) : items.length ≤ pos + 1 := by
  unfold getNext at h
  split at h
  · rename_i hc
    omega
  · simp only [Option.map_eq_none'] at h
    have := List.getElem?_eq_none_iff.mp h
    omega

theorem getFocusOffsetInset_disj {fw : Item} {offsetRows insetNum insetDen : Nat}
    {oi : Nat × Nat} (h : getFocusOffsetInset fw offsetRows insetNum insetDen = .ok oi) :
    oi.1 = 0 ∨ oi.2 = 0 := by
  unfold getFocusOffsetInset at h
  split at h
  · simp only [Except.ok.injEq] at h
    subst h
    exact Or.inr rfl
  · split at h
    · exact Except.noConfusion h
    · try dsimp only at h
      split at h
      · exact Except.noConfusion h
      · simp only [Except.ok.injEq] at h
        subst h
        exact Or.inl rfl

theorem clampOffset_zero (maxrow : Nat) : clampOffset maxrow 0 = 0 := by
  unfold clampOffset
  split
  · rename_i hc
    omega
  · rfl

theorem adjustForCursor_disj {maxrow offsetRows insetRows : Nat}
    {cursor : Option (Nat × Nat)} (hd : offsetRows = 0 ∨ insetRows = 0) :
    (adjustForCursor maxrow offsetRows insetRows cursor).1 = 0 ∨
    (adjustForCursor maxrow offsetRows insetRows cursor).2 = 0 := by
  unfold adjustForCursor
  cases cursor with
  | none => exact hd
  | some c =>
    obtain ⟨cx, cy⟩ := c
    dsimp only
    split
    · rename_i hneg
      rcases hd with h0 | h0
      · exact Or.inl h0
      · rw [h0] at hneg
        exfalso
        omega
    · rename_i hnneg
      split
      · rename_i hbig
        try dsimp only
        split
        · exact Or.inl rfl
        · rename_i hnn
          rcases hd with h0 | h0
          · rw [h0] at hbig
            exfalso
            omega
          · exact Or.inr h0
      · exact hd

theorem collectAbove_ledger (items : List Item) :
    ∀ (pos fl offsetRows : Nat) (fa : List VisibleInfoFillItem),
      fl ≤ offsetRows → pos ≤ items.length →
      (collectAbove items pos fl offsetRows 0 fa pos).offsetRows ≤ offsetRows ∧
      sumFill (collectAbove items pos fl offsetRows 0 fa pos).fillAbove + offsetRows =
        sumFill fa + fl + (collectAbove items pos fl offsetRows 0 fa pos).trimTop +
          (collectAbove items pos fl offsetRows 0 fa pos).offsetRows ∧
      sumFill (collectAbove items pos fl offsetRows 0 fa pos).fillAbove +
          totalHeight (items.take (collectAbove items pos fl offsetRows 0 fa pos).topPos) =
        sumFill fa + totalHeight (items.take pos) ∧
      (collectAbove items pos fl offsetRows 0 fa pos).topPos ≤ pos := by
  intro pos
  induction pos with
  | zero =>
    intro fl offsetRows fa hfl hpos
    by_cases hz : fl = 0
    · subst hz
      rw [collectAbove_base]
      dsimp only
      omega
    · rw [collectAbove_none hz (by simp [getPrev])]
      dsimp only
      omega
  | succ p ih =>
    intro fl offsetRows fa hfl hpos
    by_cases hz : fl = 0
    · subst hz
      rw [collectAbove_base]
      dsimp only
      omega
    · cases hprev : items[p]? with
      | none =>
        exfalso
        have := List.getElem?_eq_none_iff.mp hprev
        omega
      | some prev =>
        have hp : p < items.length := by
          by_contra hc
          rw [List.getElem?_eq_none_iff.mpr (by omega)] at hprev
          exact Option.noConfusion hprev
        have hgp : getPrev items (p + 1) = some (prev, p) := by
          simp [getPrev, hprev]
        have hpi : items[p] = prev := by
          have := List.getElem?_eq_getElem hp
          rw [hprev] at this
          exact (Option.some.injEq _ _).mp this.symm
        have htk := totalHeight_take_succ items p hp
        rw [hpi] at htk
        by_cases hlt : fl < prev.height
        · rw [collectAbove_straddle hz hgp hlt]
          dsimp only
          rw [sumFill_append]
          dsimp only
          omega
        · rw [collectAbove_step hz hgp hlt]
          have hrec := ih (fl - prev.height) offsetRows
            (if prev.height ≠ 0 then fa ++ [⟨prev, p, prev.height⟩] else fa)
            (by omega) (by omega)
          rw [sumFill_filter_append] at hrec
          omega

theorem collectBelowGo_ledger (items : List Item) :
    ∀ (gas pos : Nat) (fl : Int) (tb : Nat) (fb : List VisibleInfoFillItem),
      gas = items.length - pos → tb = (-fl).toNat →
      ((sumFill (collectBelowGo items gas pos fl tb fb).fillBelow : Int) +
          (collectBelowGo items gas pos fl tb fb).fillLines.toNat =
        sumFill fb + fl + (collectBelowGo items gas pos fl tb fb).trimBottom) ∧
      (collectBelowGo items gas pos fl tb fb).fillLines ≤ fl ∧
      (0 < (collectBelowGo items gas pos fl tb fb).fillLines →
        sumFill (collectBelowGo items gas pos fl tb fb).fillBelow =
          sumFill fb + totalHeight (items.drop (pos + 1)) ∧
        (collectBelowGo items gas pos fl tb fb).trimBottom = tb) := by
  intro gas
  induction gas with
  | zero =>
    intro pos fl tb fb hgas htb
    simp only [collectBelowGo]
    rw [totalHeight_drop_nil items (pos + 1) (by omega)]
    refine ⟨by omega, le_refl _, fun h => ⟨by omega, by simp⟩⟩
  | succ g ih =>
    intro pos fl tb fb hgas htb
    rw [collectBelowGo]
    by_cases hfl : fl ≤ 0
    · rw [if_pos hfl]
      dsimp only
      refine ⟨by omega, le_refl _, by intro hc; omega⟩
    · rw [if_neg hfl]
      cases hnext : getNext items pos with
      | none =>
        dsimp only
        have hlen := getNext_eq_none_length hnext
        rw [totalHeight_drop_nil items (pos + 1) hlen]
        omega
      | some pr =>
        obtain ⟨nxt, p⟩ := pr
        obtain ⟨rfl, hlen, hg⟩ := getNext_eq_some hnext
        have hni : items[pos + 1] = nxt := by
          have := List.getElem?_eq_getElem hlen
          rw [hg] at this
          exact (Option.some.injEq _ _).mp this.symm
        have hdr := totalHeight_drop_succ items (pos + 1) hlen
        rw [hni] at hdr
        dsimp only
        have hsf := sumFill_filter_append fb nxt (pos + 1)
        by_cases hlt : fl < (nxt.height : Int)
        · rw [if_pos hlt]
          dsimp only
          rw [hsf]
          refine ⟨by push_cast; omega, by omega, by intro hc; omega⟩
        · rw [if_neg hlt]
          have hrec := ih (pos + 1) (fl - nxt.height) tb
            (if nxt.height ≠ 0 then fb ++ [⟨nxt, pos + 1, nxt.height⟩] else fb)
            (by omega) (by omega)
          rw [hsf] at hrec
          obtain ⟨r1, r2, r3⟩ := hrec
          refine ⟨by push_cast at r1; omega, by omega, ?_⟩
          intro hc
          obtain ⟨s1, s2⟩ := r3 hc
          exact ⟨by omega, s2⟩

theorem adjustTrimTop_ledger (fillLines trimTop offsetRows : Nat) :
    (adjustTrimTop fillLines trimTop offsetRows).1 ≤ fillLines ∧
    (adjustTrimTop fillLines trimTop offsetRows).2.1 + fillLines =
      trimTop + (adjustTrimTop fillLines trimTop offsetRows).1 ∧
    (adjustTrimTop fillLines trimTop offsetRows).2.2 +
      (adjustTrimTop fillLines trimTop offsetRows).1 = offsetRows + fillLines ∧
    (0 < (adjustTrimTop fillLines trimTop offsetRows).1 →
      (adjustTrimTop fillLines trimTop offsetRows).2.1 = 0) := by
  unfold adjustTrimTop
  split
  · rename_i hc
    split
    · rename_i hle
      dsimp only
      omega
    · rename_i hgt
      dsimp only
      omega
  · rename_i hc
    dsimp only
    omega

theorem fillTopAgain_ledger (items : List Item) :
    ∀ (pos fl offsetRows trimTop : Nat) (fa : List VisibleInfoFillItem),
      (0 < fl → trimTop = 0) → pos ≤ items.length →
      (fillTopAgain items pos fl offsetRows trimTop fa).fillLines ≤ fl ∧
      (fillTopAgain items pos fl offsetRows trimTop fa).offsetRows +
        (fillTopAgain items pos fl offsetRows trimTop fa).fillLines = offsetRows + fl ∧
      sumFill (fillTopAgain items pos fl offsetRows trimTop fa).fillAbove +
          (fillTopAgain items pos fl offsetRows trimTop fa).fillLines + trimTop =
        sumFill fa + fl + (fillTopAgain items pos fl offsetRows trimTop fa).trimTop ∧
      (0 < (fillTopAgain items pos fl offsetRows trimTop fa).fillLines →
        sumFill (fillTopAgain items pos fl offsetRows trimTop fa).fillAbove =
          sumFill fa + totalHeight (items.take pos) ∧
        (fillTopAgain items pos fl offsetRows trimTop fa).trimTop = trimTop) := by
  intro pos
  induction pos with
  | zero =>
    intro fl offsetRows trimTop fa htt hpos
    by_cases hz : fl = 0
    · subst hz
      rw [fillTopAgain_base]
      dsimp only
      omega
    · rw [fillTopAgain_none hz (by simp [getPrev])]
      dsimp only
      have h0 : totalHeight (items.take 0) = 0 := rfl
      omega
  | succ p ih =>
    intro fl offsetRows trimTop fa htt hpos
    by_cases hz : fl = 0
    · subst hz
      rw [fillTopAgain_base]
      dsimp only
      omega
    · have htt0 : trimTop = 0 := htt (by omega)
      cases hprev : items[p]? with
      | none =>
        exfalso
        have := List.getElem?_eq_none_iff.mp hprev
        omega
      | some prev =>
        have hp : p < items.length := by
          by_contra hc
          rw [List.getElem?_eq_none_iff.mpr (by omega)] at hprev
          exact Option.noConfusion hprev
        have hgp : getPrev items (p + 1) = some (prev, p) := by
          simp [getPrev, hprev]
        have hpi : items[p] = prev := by
          have := List.getElem?_eq_getElem hp
          rw [hprev] at this
          exact (Option.some.injEq _ _).mp this.symm
        have htk := totalHeight_take_succ items p hp
        rw [hpi] at htk
        by_cases hlt : fl < prev.height
        · rw [fillTopAgain_straddle hz hgp hlt]
          dsimp only
          rw [sumFill_append]
          dsimp only
          omega
        · rw [fillTopAgain_step hz hgp hlt]
          have hrec := ih (fl - prev.height) (offsetRows + prev.height) trimTop
            (fa ++ [⟨prev, p, prev.height⟩]) (fun _ => htt0) (by omega)
          rw [sumFill_append] at hrec
          dsimp only at hrec
          omega

theorem collectBelow_ledger (items : List Item) (pos : Nat) (fl : Int) (tb : Nat)
    (fb : List VisibleInfoFillItem) (htb : tb = (-fl).toNat) :
    ((sumFill (collectBelow items pos fl tb fb).fillBelow : Int) +
        (collectBelow items pos fl tb fb).fillLines.toNat =
      sumFill fb + fl + (collectBelow items pos fl tb fb).trimBottom) ∧
    (collectBelow items pos fl tb fb).fillLines ≤ fl ∧
    (0 < (collectBelow items pos fl tb fb).fillLines →
      sumFill (collectBelow items pos fl tb fb).fillBelow =
        sumFill fb + totalHeight (items.drop (pos + 1)) ∧
      (collectBelow items pos fl tb fb).trimBottom = tb) := by
  unfold collectBelow
  exact collectBelowGo_ledger items _ pos fl tb fb rfl htb

/-- The conservation ledger for the partition-building tail of
`calculate_visible`: with a valid, nonzero-height-sum sequence and the
invariant that a nonzero `offset_rows` forces a zero `inset_rows`, the rows
accounted by the three fill loops and the two trims add up to exactly
`maxrow`. -/
theorem calcVisible_conservation_core (items : List Item) (focus : Nat) (fw : Item)
    (maxrow or3 ir3 : Nat) (a : AboveOut) (fl0 : Int) (tb0 : Nat) (b : BelowOut)
    (adj : Nat × Nat × Nat) (t : TopAgainOut)
    (hfoc : focus < items.length) (hfw : items[focus]? = some fw)
    (hdisj : or3 = 0 ∨ ir3 = 0) (hcontent : maxrow ≤ totalHeight items)
    (hA : a = collectAbove items focus or3 or3 ir3 [] focus)
    (hfl0 : fl0 = (maxrow : Int) - fw.height - a.offsetRows + ir3)
    (htb0 : tb0 = ((fw.height : Int) + a.offsetRows - ir3 - maxrow).toNat)
    (hB : b = collectBelow items focus fl0 tb0 [])
    (hAdj : adj = adjustTrimTop b.fillLines.toNat a.trimTop a.offsetRows)
    (hT : t = fillTopAgain items a.topPos adj.1 adj.2.2 adj.2.1 a.fillAbove) :
    (sumFill t.fillAbove : Int) + fw.height + sumFill b.fillBelow
      - t.trimTop - b.trimBottom = maxrow := by
  have hsfnil : sumFill ([] : List VisibleInfoFillItem) = 0 := rfl
  have hfi : items[focus] = fw := by
    have := List.getElem?_eq_getElem hfoc
    rw [hfw] at this
    exact (Option.some.injEq _ _).mp this.symm
  have hstep2 : sumFill a.fillAbove + ir3 = a.trimTop + a.offsetRows ∧
      sumFill a.fillAbove + totalHeight (items.take a.topPos) =
        totalHeight (items.take focus) ∧
      a.topPos ≤ focus := by
    rcases hdisj with hor0 | hir0
    · subst hor0
      have ha2 : a = ⟨0, ir3, [], focus⟩ := hA.trans collectAbove_base
      rw [ha2]
      dsimp only
      omega
    · subst hir0
      have hL := collectAbove_ledger items focus or3 or3 [] (le_refl _)
        (Nat.le_of_lt hfoc)
      rw [← hA] at hL
      omega
  have htb0' : tb0 = (-fl0).toNat := by omega
  have hBL := collectBelow_ledger items focus fl0 tb0 [] htb0'
  rw [← hB] at hBL
  have hAL := adjustTrimTop_ledger b.fillLines.toNat a.trimTop a.offsetRows
  rw [← hAdj] at hAL
  have hTL := fillTopAgain_ledger items a.topPos adj.1 adj.2.2 adj.2.1 a.fillAbove
    (fun h => hAL.2.2.2 h) (by omega)
  rw [← hT] at hTL
  rcases Nat.eq_zero_or_pos t.fillLines with hr | hr
  · obtain ⟨b1, b2, b3⟩ := hBL
    obtain ⟨a1, a2, a3, a4⟩ := hAL
    obtain ⟨t1, t2, t3, t4⟩ := hTL
    omega
  · obtain ⟨b1, b2, b3⟩ := hBL
    obtain ⟨a1, a2, a3, a4⟩ := hAL
    obtain ⟨t1, t2, t3, t4⟩ := hTL
    have hadj1 : 0 < adj.1 := by omega
    have hbl : 0 < b.fillLines := by omega
    obtain ⟨s3, s3t⟩ := b3 hbl
    obtain ⟨s4, s4t⟩ := t4 hr
    have hdec := totalHeight_decomp items focus hfoc
    rw [hfi] at hdec
    omega

/-- C1: height conservation — whenever `calculate_visible` returns a
partition and the sequence has enough content to fill the viewport
(`maxrow` positive and at most the total height of the items), the sum of
the fill-list heights plus the focus height, minus the two trims, is
exactly `maxrow`. -/
theorem claim1_height_conservation (items : List Item)
    (focus offsetRows0 insetNum insetDen maxcol maxrow : Nat) (focusFlag : Bool)
    (vi : VisibleInfo)
    (hmr : 0 < maxrow)
    (hcontent : maxrow ≤ totalHeight items)
    (h : calcVisiblePure items focus offsetRows0 insetNum insetDen maxcol maxrow focusFlag =
      .ok (some vi)) :
    (sumFill vi.top.fill : Int) + vi.middle.focusRows + sumFill vi.bottom.fill
      - vi.top.trim - vi.bottom.trim = maxrow := by
  cases hfw : items[focus]? with
  | none =>
    exfalso
    unfold calcVisiblePure at h
    rw [hfw] at h
    simp at h
  | some fw =>
    have hfoc : focus < items.length := by
      by_contra hc
      rw [List.getElem?_eq_none_iff.mpr (by omega)] at hfw
      exact Option.noConfusion hfw
    unfold calcVisiblePure at h
    rw [hfw] at h
    dsimp only at h
    obtain ⟨oi, hoi, h⟩ := except_bind_eq_ok h
    try dsimp only at h
    simp only [except_pure_eq, Except.ok.injEq, Option.some.injEq] at h
    subst h
    have hd0 := getFocusOffsetInset_disj hoi
    have hc0 : clampOffset maxrow oi.1 = 0 ∨ oi.2 = 0 := by
      rcases hd0 with h0 | h0
      · rw [h0, clampOffset_zero]
        exact Or.inl rfl
      · exact Or.inr h0
    have hdisj := @adjustForCursor_disj maxrow (clampOffset maxrow oi.1) oi.2
      (if maxrow ≠ 0 ∧ fw.selectable ∧ focusFlag then fw.cursor else none) hc0
    dsimp only
    exact calcVisible_conservation_core items focus fw maxrow _ _ _ _ _ _ _ _
      hfoc hfw hdisj hcontent rfl rfl rfl rfl rfl rfl

/-- Witness for C1: one height-2 item filling a height-2 viewport exactly. -/
theorem claim1_witness :
    (0 < 2 ∧ 2 ≤ totalHeight [⟨2, true, none⟩]) ∧
    (sumFill (VisibleInfo.mk ⟨0, ⟨2, true, none⟩, 0, 2, none⟩ ⟨0, []⟩ ⟨0, []⟩).top.fill : Int) +
        (VisibleInfo.mk ⟨0, ⟨2, true, none⟩, 0, 2, none⟩ ⟨0, []⟩ ⟨0, []⟩).middle.focusRows +
        sumFill (VisibleInfo.mk ⟨0, ⟨2, true, none⟩, 0, 2, none⟩ ⟨0, []⟩ ⟨0, []⟩).bottom.fill -
        (VisibleInfo.mk ⟨0, ⟨2, true, none⟩, 0, 2, none⟩ ⟨0, []⟩ ⟨0, []⟩).top.trim -
        (VisibleInfo.mk ⟨0, ⟨2, true, none⟩, 0, 2, none⟩ ⟨0, []⟩ ⟨0, []⟩).bottom.trim = 2 :=
  ⟨⟨by decide, by decide⟩,
    claim1_height_conservation [⟨2, true, none⟩] 0 0 0 1 10 2 false
      (VisibleInfo.mk ⟨0, ⟨2, true, none⟩, 0, 2, none⟩ ⟨0, []⟩ ⟨0, []⟩)
      (by decide) (by decide) rfl⟩

theorem getElem_replicate_item {N m : Nat} (h : m < N) :
    (List.replicate N (⟨1, true, none⟩ : Item))[m]? = some ⟨1, true, none⟩ := by
  rw [List.getElem?_replicate]
  simp [h]

theorem collectAbove_rep (N : Nat) :
    ∀ (fl pos offsetRows : Nat) (fa : List VisibleInfoFillItem),
      fl ≤ pos → pos ≤ N →
      collectAbove (List.replicate N (⟨1, true, none⟩ : Item)) pos fl offsetRows 0 fa pos =
        ⟨offsetRows, 0,
         fa ++ (List.range fl).map (fun j => ⟨⟨1, true, none⟩, pos - 1 - j, 1⟩),
         pos - fl⟩ := by
  intro fl
  induction fl with
  | zero =>
    intro pos offsetRows fa h1 h2
    rw [collectAbove_base]
    simp
  | succ m ih =>
    intro pos offsetRows fa h1 h2
    obtain ⟨p, rfl⟩ : ∃ p, pos = p + 1 := ⟨pos - 1, by omega⟩
    have hget := getElem_replicate_item (N := N) (m := p) (by omega)
    have hgp : getPrev (List.replicate N (⟨1, true, none⟩ : Item)) (p + 1) =
        some (⟨1, true, none⟩, p) := by
      simp [getPrev, hget]
    rw [collectAbove_step (by omega) hgp (by dsimp only; omega)]
    have hm : m + 1 - (⟨1, true, none⟩ : Item).height = m := rfl
    rw [hm]
    rw [if_pos (by dsimp only; omega)]
    dsimp only
    rw [ih p offsetRows (fa ++ [(⟨⟨1, true, none⟩, p, 1⟩ : VisibleInfoFillItem)]) (by omega) (by omega)]
    have hl : (fa ++ [(⟨⟨1, true, none⟩, p, 1⟩ : VisibleInfoFillItem)]) ++
        (List.range m).map (fun j => ⟨⟨1, true, none⟩, p - 1 - j, 1⟩) =
        fa ++ (List.range (m + 1)).map
          (fun j => (⟨⟨1, true, none⟩, p + 1 - 1 - j, 1⟩ : VisibleInfoFillItem)) := by
      have h0 : p + 1 - 1 - 0 = p := by omega
      rw [List.range_succ_eq_map, List.map_cons, List.map_map, List.append_assoc,
        List.singleton_append, h0]
      congr 1
      congr 1
      apply List.map_congr_left
      intro a ha
      show (⟨⟨1, true, none⟩, p - 1 - a, 1⟩ : VisibleInfoFillItem) =
        ⟨⟨1, true, none⟩, p + 1 - 1 - (a + 1), 1⟩
      have hs : p - 1 - a = p + 1 - 1 - (a + 1) := by omega
      rw [hs]
    rw [hl]
    congr 1
    omega

theorem collectBelow_rep (N : Nat) :
    ∀ (fl pos tb : Nat) (fb : List VisibleInfoFillItem),
      pos + fl ≤ N - 1 →
      collectBelow (List.replicate N (⟨1, true, none⟩ : Item)) pos (fl : Int) tb fb =
        ⟨0, tb, fb ++ (List.range fl).map (fun j => ⟨⟨1, true, none⟩, pos + 1 + j, 1⟩)⟩ := by
  intro fl
  induction fl with
  | zero =>
    intro pos tb fb h1
    rw [collectBelow_base (by omega)]
    simp
  | succ m ih =>
    intro pos tb fb h1
    have hget := getElem_replicate_item (N := N) (m := pos + 1) (by omega)
    have hgn : getNext (List.replicate N (⟨1, true, none⟩ : Item)) pos =
        some (⟨1, true, none⟩, pos + 1) := by
      unfold getNext
      rw [if_neg (by simp; omega)]
      rw [hget]
      rfl
    rw [collectBelow_step (by omega) hgn (by dsimp only; omega)]
    have hm : ((m + 1 : Nat) : Int) - (⟨1, true, none⟩ : Item).height = ((m : Nat) : Int) := by
      dsimp only
      omega
    rw [hm]
    rw [if_pos (by dsimp only; omega)]
    dsimp only
    rw [ih (pos + 1) tb (fb ++ [(⟨⟨1, true, none⟩, pos + 1, 1⟩ : VisibleInfoFillItem)]) (by omega)]
    have hl : (fb ++ [(⟨⟨1, true, none⟩, pos + 1, 1⟩ : VisibleInfoFillItem)]) ++
        (List.range m).map (fun j => ⟨⟨1, true, none⟩, pos + 1 + 1 + j, 1⟩) =
        fb ++ (List.range (m + 1)).map
          (fun j => (⟨⟨1, true, none⟩, pos + 1 + j, 1⟩ : VisibleInfoFillItem)) := by
      have h0 : pos + 1 + 0 = pos + 1 := by omega
      rw [List.range_succ_eq_map, List.map_cons, List.map_map, List.append_assoc,
        List.singleton_append, h0]
      congr 1
      congr 1
      apply List.map_congr_left
      intro a ha
      show (⟨⟨1, true, none⟩, pos + 1 + 1 + a, 1⟩ : VisibleInfoFillItem) =
        ⟨⟨1, true, none⟩, pos + 1 + (a + 1), 1⟩
      have hs : pos + 1 + 1 + a = pos + 1 + (a + 1) := by omega
      rw [hs]
    rw [hl]

theorem getFocusOffsetInset_rep (w : Item) (offsetRows : Nat) :
    getFocusOffsetInset w offsetRows 0 1 = .ok (offsetRows, 0) := by
  unfold getFocusOffsetInset
  split
  · rfl
  · rename_i h
    simp only [ne_eq, not_not] at h
    subst h
    rw [if_neg (by omega)]
    dsimp only
    rw [if_neg (by simp)]
    simp

theorem clampOffset_id (maxrow offsetRows : Nat) (h : offsetRows < maxrow) :
    clampOffset maxrow offsetRows = offsetRows := by
  unfold clampOffset
  rw [if_neg (by omega)]

theorem collectBelow_rep2 (N pos tb n : Nat) (fb : List VisibleInfoFillItem) (fl : Int)
    (hfl : fl = (n : Int)) (h1 : pos + n ≤ N - 1) :
    collectBelow (List.replicate N (⟨1, true, none⟩ : Item)) pos fl tb fb =
      ⟨0, tb, fb ++ (List.range n).map (fun j => ⟨⟨1, true, none⟩, pos + 1 + j, 1⟩)⟩ := by
  subst hfl
  exact collectBelow_rep N n pos tb fb h1

theorem calcVisible_rep (N H k offsetRows maxcol : Nat) (hH : 1 ≤ H)
    (hk : k < N) (hor1 : offsetRows ≤ k) (hor2 : offsetRows ≤ H - 1)
    (hbelow : k + (H - 1 - offsetRows) ≤ N - 1) :
    calcVisiblePure (List.replicate N (⟨1, true, none⟩ : Item)) k offsetRows 0 1 maxcol H
        true =
      .ok (some ⟨⟨(offsetRows : Int), ⟨1, true, none⟩, k, 1, none⟩,
                 ⟨0, (List.range offsetRows).map (fun j => ⟨⟨1, true, none⟩, k - 1 - j, 1⟩)⟩,
                 ⟨0, (List.range (H - 1 - offsetRows)).map
                   (fun j => ⟨⟨1, true, none⟩, k + 1 + j, 1⟩)⟩⟩) := by
  unfold calcVisiblePure
  rw [getElem_replicate_item hk]
  dsimp only
  rw [getFocusOffsetInset_rep, except_bind_ok]
  dsimp only
  rw [clampOffset_id H offsetRows (by omega)]
  rw [show (if H ≠ 0 ∧ true = true ∧ true = true then (none : Option (Nat × Nat)) else none) =
    none from by split <;> rfl]
  rw [show adjustForCursor H offsetRows 0 none = (offsetRows, 0) from rfl]
  dsimp only
  rw [collectAbove_rep N offsetRows k offsetRows [] hor1 (Nat.le_of_lt hk)]
  dsimp only [List.nil_append]
  rw [collectBelow_rep2 N k _ (H - 1 - offsetRows) [] _ (by push_cast; omega) (by omega)]
  dsimp only [List.nil_append]
  rw [show adjustTrimTop (Int.toNat 0) 0 offsetRows = (0, 0, offsetRows) from by
    unfold adjustTrimTop; simp]
  dsimp only
  rw [fillTopAgain_base]
  dsimp only
  rw [show (((1 : Nat) : Int) + (offsetRows : Int) - ((0 : Nat) : Int) - (H : Int)).toNat = 0
    from by omega]
  rw [show ((offsetRows : Int) - ((0 : Nat) : Int)) = (offsetRows : Int) from by omega]

theorem changeFocus_eval (lb : ListBox) (maxcol maxrow pos : Nat) (oi : Int)
    (hfoc : lb.items[lb.focus]? = some ⟨1, true, none⟩)
    (htgt : lb.items[pos]? = some ⟨1, true, none⟩)
    (hpos : pos < lb.items.length)
    (h0 : 0 ≤ oi) (hbot : oi ≤ (maxrow : Int) - 1) :
    lb.changeFocus maxcol maxrow pos oi (some Direction.above) none none =
      .ok { lb with focus := pos, offsetRows := oi.toNat, insetNum := 0, insetDen := 1 } := by
  unfold ListBox.changeFocus
  have hupd : lb.updatePrefColFromFocus maxcol = lb := by
    unfold ListBox.updatePrefColFromFocus
    rw [hfoc]
  dsimp only
  rw [hupd]
  unfold ListBox.setFocusBody
  rw [if_pos hpos, except_bind_ok]
  dsimp only
  rw [htgt]
  try dsimp only
  rw [except_pure_bind]
  dsimp only
  have hno1 : ¬ (some Direction.above = some Direction.above ∧ (true = true) ∧
      (maxrow : Int) - ((1 : Nat) : Int) < oi) := by
    rintro ⟨-, -, h3⟩
    omega
  have hno2 : ¬ (some Direction.above = some Direction.below ∧ (true = true) ∧ oi < 0) := by
    rintro ⟨h1, -⟩
    simp at h1
  rw [if_neg hno1, if_neg hno2, if_pos h0]

theorem keypressDown_rep_below (N H k maxcol : Nat) (hH : 1 ≤ H) (hN : H < N)
    (hk : k < H - 1) :
    ListBox.keypressDown
        ⟨List.replicate N (⟨1, true, none⟩ : Item), k, k, 0, 1, none, Pending.none, none⟩
        maxcol H =
      .ok (.handled,
        ⟨List.replicate N (⟨1, true, none⟩ : Item), k + 1, k + 1, 0, 1, none,
          Pending.none, none⟩) := by
  unfold ListBox.keypressDown
  rw [if_neg (by simp)]
  rw [except_pure_bind]
  dsimp only
  rw [getElem_replicate_item (show k < N by omega)]
  dsimp only
  unfold ListBox.keypressDownCore
  unfold ListBox.calcVisible
  dsimp only
  rw [calcVisible_rep N H k k maxcol hH (by omega) (le_refl k) (by omega) (by omega)]
  rw [except_bind_ok]
  dsimp only
  obtain ⟨m, hm⟩ : ∃ m, H - 1 - k = m + 1 := ⟨H - 2 - k, by omega⟩
  rw [hm, List.range_succ_eq_map, List.map_cons]
  simp only [scanFillBelow]
  rw [if_pos (by simp)]
  dsimp only
  rw [changeFocus_eval _ _ _ _ _ (getElem_replicate_item (by dsimp only; omega))
    (getElem_replicate_item (by omega))
    (by (try simp); omega) (by omega) (by omega)]
  rw [except_bind_ok]
  rw [except_pure_eq]
  dsimp only
  congr 3

theorem keypressDown_rep_scroll (N H k maxcol : Nat) (hH : 1 ≤ H) (hN : H < N)
    (hk1 : H - 1 ≤ k) (hk2 : k < N - 1) :
    ListBox.keypressDown
        ⟨List.replicate N (⟨1, true, none⟩ : Item), k, H - 1, 0, 1, none, Pending.none, none⟩
        maxcol H =
      .ok (.handled,
        ⟨List.replicate N (⟨1, true, none⟩ : Item), k + 1, H - 1, 0, 1, none,
          Pending.none, none⟩) := by
  unfold ListBox.keypressDown
  rw [if_neg (by simp)]
  rw [except_pure_bind]
  dsimp only
  rw [getElem_replicate_item (show k < N by omega)]
  dsimp only
  unfold ListBox.keypressDownCore
  unfold ListBox.calcVisible
  dsimp only
  rw [calcVisible_rep N H k (H - 1) maxcol hH (by omega) (by omega) (le_refl _) (by omega)]
  rw [except_bind_ok]
  dsimp only
  rw [show H - 1 - (H - 1) = 0 from by omega]
  simp only [List.range_zero, List.map_nil, scanFillBelow]
  have hgn : getNext (List.replicate N (⟨1, true, none⟩ : Item)) k =
      some (⟨1, true, none⟩, k + 1) := by
    unfold getNext
    rw [if_neg (by simp; omega)]
    rw [getElem_replicate_item (show k + 1 < N by omega)]
    rfl
  rw [scrollBelow_found (by omega) hgn (by simp)]
  dsimp only
  rw [changeFocus_eval _ _ _ _ _ (getElem_replicate_item (by dsimp only; omega))
    (getElem_replicate_item (by omega))
    (by (try simp); omega) (by omega) (by omega)]
  rw [except_bind_ok]
  rw [except_pure_eq]
  dsimp only
  congr 3
  omega

theorem keypressDown_rep_end (N H maxcol : Nat) (hH : 1 ≤ H) (hN : H < N) :
    ListBox.keypressDown
        ⟨List.replicate N (⟨1, true, none⟩ : Item), N - 1, H - 1, 0, 1, none,
          Pending.none, none⟩ maxcol H =
      .ok (.unhandled,
        ⟨List.replicate N (⟨1, true, none⟩ : Item), N - 1, H - 1, 0, 1, none,
          Pending.none, none⟩) := by
  unfold ListBox.keypressDown
  rw [if_neg (by simp)]
  rw [except_pure_bind]
  dsimp only
  rw [getElem_replicate_item (show N - 1 < N by omega)]
  dsimp only
  unfold ListBox.keypressDownCore
  unfold ListBox.calcVisible
  dsimp only
  rw [calcVisible_rep N H (N - 1) (H - 1) maxcol hH (by omega) (by omega) (le_refl _)
    (by omega)]
  rw [except_bind_ok]
  dsimp only
  rw [show H - 1 - (H - 1) = 0 from by omega]
  simp only [List.range_zero, List.map_nil, scanFillBelow]
  have hgn : getNext (List.replicate N (⟨1, true, none⟩ : Item)) (N - 1) = none := by
    unfold getNext
    rw [if_pos (by simp)]
  rw [scrollBelow_offEnd (by omega) hgn]
  rfl

/-- C3: down-traversal — for `N` selectable height-1 items in a viewport of
height `H < N` (focus `k` stored with offset `min k (H-1)`, the state down
presses produce), each of the first `N-1` presses is handled and advances
the focus by exactly one position, and the press on the last item leaves
the state unchanged and is reported unhandled. -/
theorem claim3_down_traversal (N H maxcol : Nat) (h1 : 1 ≤ H) (h2 : H < N) :
    (∀ k, k < N - 1 →
      ListBox.keypressDown
          ⟨List.replicate N (⟨1, true, none⟩ : Item), k, min k (H - 1), 0, 1, none,
            Pending.none, none⟩ maxcol H =
        .ok (.handled,
          ⟨List.replicate N (⟨1, true, none⟩ : Item), k + 1, min (k + 1) (H - 1), 0, 1,
            none, Pending.none, none⟩)) ∧
    ListBox.keypressDown
        ⟨List.replicate N (⟨1, true, none⟩ : Item), N - 1, min (N - 1) (H - 1), 0, 1, none,
          Pending.none, none⟩ maxcol H =
      .ok (.unhandled,
        ⟨List.replicate N (⟨1, true, none⟩ : Item), N - 1, min (N - 1) (H - 1), 0, 1, none,
          Pending.none, none⟩) := by
  constructor
  · intro k hk
    by_cases hc : k < H - 1
    · rw [show min k (H - 1) = k from by omega,
        show min (k + 1) (H - 1) = k + 1 from by omega]
      exact keypressDown_rep_below N H k maxcol h1 h2 hc
    · rw [show min k (H - 1) = H - 1 from by omega,
        show min (k + 1) (H - 1) = H - 1 from by omega]
      exact keypressDown_rep_scroll N H k maxcol h1 h2 (by omega) hk
  · rw [show min (N - 1) (H - 1) = H - 1 from by omega]
    exact keypressDown_rep_end N H maxcol h1 h2

/-- Witness for C3 at `N = 3`, `H = 2`. -/
theorem claim3_witness :
    (∀ k, k < 3 - 1 →
      ListBox.keypressDown
          ⟨List.replicate 3 (⟨1, true, none⟩ : Item), k, min k (2 - 1), 0, 1, none,
            Pending.none, none⟩ 5 2 =
        .ok (.handled,
          ⟨List.replicate 3 (⟨1, true, none⟩ : Item), k + 1, min (k + 1) (2 - 1), 0, 1,
            none, Pending.none, none⟩)) ∧
    ListBox.keypressDown
        ⟨List.replicate 3 (⟨1, true, none⟩ : Item), 3 - 1, min (3 - 1) (2 - 1), 0, 1, none,
          Pending.none, none⟩ 5 2 =
      .ok (.unhandled,
        ⟨List.replicate 3 (⟨1, true, none⟩ : Item), 3 - 1, min (3 - 1) (2 - 1), 0, 1, none,
          Pending.none, none⟩) :=
  claim3_down_traversal 3 2 5 (by decide) (by decide)

end Urwid
